import Mathlib

/-!
Verification of the dBase .DBF/.DBT/.NDX engine against its specification.

Files are modelled as lists of byte values (`List Nat`, each entry `< 256`
wherever the source writes a byte).  Python buffer reads `buf[i]` are modelled
with `byteAt` (default 0); all claims evaluate the functions only on
well-formed inputs where the two agree.
-/

set_option maxRecDepth 100000

namespace DBase

/-- Byte at index `i` of a buffer (Python `buf[i]` on in-range indices). -/
def byteAt (l : List Nat) (i : Nat) : Nat := l.getD i 0

/-- `struct.pack("<H", v)` (values `≥ 2^16` wrap here, where Python raises). -/
def pack16LE (v : Nat) : List Nat := [v % 256, v / 256 % 256]

/-- `struct.pack("<L", v)` (values `≥ 2^32` wrap here, where Python raises). -/
def pack32LE (v : Nat) : List Nat :=
  [v % 256, v / 256 % 256, v / 65536 % 256, v / 16777216 % 256]

/-- `struct.pack(">L", v)`: big-endian 32-bit word. -/
def pack32BE (v : Nat) : List Nat :=
  [v / 16777216 % 256, v / 65536 % 256, v / 256 % 256, v % 256]

/-- `struct.unpack("<H", buf[p:p+2])`. -/
def readU16LE (l : List Nat) (p : Nat) : Nat := byteAt l p + 256 * byteAt l (p + 1)

/-- `struct.unpack("<L", buf[p:p+4])`. -/
def readU32LE (l : List Nat) (p : Nat) : Nat :=
  byteAt l p + 256 * byteAt l (p + 1) + 65536 * byteAt l (p + 2) +
    16777216 * byteAt l (p + 3)

/-- `struct.unpack(">L", buf[p:p+4])`. -/
def readU32BE (l : List Nat) (p : Nat) : Nat :=
  16777216 * byteAt l p + 65536 * byteAt l (p + 1) + 256 * byteAt l (p + 2) +
    byteAt l (p + 3)

/-- Seek to `pos` and write `data`: positions beyond the current end are
zero-filled first, exactly as a POSIX file behaves. -/
def writeBytesAt (file : List Nat) (pos : Nat) (data : List Nat) : List Nat :=
  (file ++ List.replicate (pos - file.length) 0).take pos ++ data ++
    (file ++ List.replicate (pos - file.length) 0).drop (pos + data.length)

theorem byteAt_append_pad (f : List Nat) (n i : Nat) :
    byteAt (f ++ List.replicate n 0) i = byteAt f i := by
  unfold byteAt
  rcases lt_or_ge i f.length with h | h
  · rw [List.getD_append _ _ _ _ h]
  · rw [List.getD_eq_default _ _ h]
    rcases lt_or_ge i (f ++ List.replicate n 0).length with h2 | h2
    · rw [List.getD_eq_getElem _ _ h2, List.getElem_append_right h]
      simp
    · rw [List.getD_eq_default _ _ h2]

theorem getD_drop' (l : List Nat) (n m : Nat) :
    (l.drop n).getD m 0 = l.getD (n + m) 0 := by
  simp [List.getD, List.getElem?_drop]

theorem getD_take' (l : List Nat) (n m : Nat) (h : m < n) :
    (l.take n).getD m 0 = l.getD m 0 := by
  simp [List.getD, List.getElem?_take, h]

/-- Bytes strictly before the write position are unchanged. -/
theorem byteAt_writeBytesAt_lt (f : List Nat) (pos : Nat) (data : List Nat)
    (i : Nat) (h : i < pos) :
    byteAt (writeBytesAt f pos data) i = byteAt f i := by
  unfold writeBytesAt
  set f' := f ++ List.replicate (pos - f.length) 0 with hf'
  have hlen : pos ≤ f'.length := by
    simp only [hf', List.length_append, List.length_replicate]
    omega
  have h1 : i < (f'.take pos).length := by
    rw [List.length_take]; omega
  have h2 : i < (f'.take pos ++ data).length := by
    rw [List.length_append]; omega
  unfold byteAt
  rw [List.getD_append _ _ _ _ h2, List.getD_append _ _ _ _ h1,
    getD_take' _ _ _ h]
  exact byteAt_append_pad f _ i

/-- Bytes at or beyond the end of the written span are unchanged. -/
theorem byteAt_writeBytesAt_ge (f : List Nat) (pos : Nat) (data : List Nat)
    (i : Nat) (h : pos + data.length ≤ i) :
    byteAt (writeBytesAt f pos data) i = byteAt f i := by
  unfold writeBytesAt
  set f' := f ++ List.replicate (pos - f.length) 0 with hf'
  have hlen : pos ≤ f'.length := by
    simp only [hf', List.length_append, List.length_replicate]
    omega
  have htk : (f'.take pos).length = pos := by rw [List.length_take]; omega
  have hab : (f'.take pos ++ data).length = pos + data.length := by
    rw [List.length_append, htk]
  unfold byteAt
  rw [List.getD_append_right _ _ _ _ (by rw [hab]; omega), hab, getD_drop']
  have harg : pos + data.length + (i - (pos + data.length)) = i := by omega
  rw [harg]
  exact byteAt_append_pad f _ i

/-- Bytes inside the written span come from `data`. -/
theorem byteAt_writeBytesAt_inside (f : List Nat) (pos : Nat) (data : List Nat)
    (j : Nat) (h : j < data.length) :
    byteAt (writeBytesAt f pos data) (pos + j) = byteAt data j := by
  unfold writeBytesAt
  set f' := f ++ List.replicate (pos - f.length) 0 with hf'
  have hlen : pos ≤ f'.length := by
    simp only [hf', List.length_append, List.length_replicate]
    omega
  have htk : (f'.take pos).length = pos := by rw [List.length_take]; omega
  have h2 : pos + j < (f'.take pos ++ data).length := by
    rw [List.length_append, htk]; omega
  unfold byteAt
  rw [List.getD_append _ _ _ _ h2, List.getD_append_right _ _ _ _ (by rw [htk]; omega),
    htk]
  have : pos + j - pos = j := by omega
  rw [this]

theorem readU32LE_pack32LE (f : List Nat) (v : Nat) :
    readU32LE (writeBytesAt f 0 (pack32LE v)) 0 = v % 4294967296 := by
  unfold readU32LE
  have h0 := byteAt_writeBytesAt_inside f 0 (pack32LE v) 0 (by simp [pack32LE])
  have h1 := byteAt_writeBytesAt_inside f 0 (pack32LE v) 1 (by simp [pack32LE])
  have h2 := byteAt_writeBytesAt_inside f 0 (pack32LE v) 2 (by simp [pack32LE])
  have h3 := byteAt_writeBytesAt_inside f 0 (pack32LE v) 3 (by simp [pack32LE])
  simp only [Nat.zero_add] at h0 h1 h2 h3
  rw [h0, h1, h2, h3]
  simp only [pack32LE, byteAt, List.getD_cons_zero, List.getD_cons_succ]
  omega

/-! ## Memo codec (.DBT) -/

/-- `dbf_memo_create`: block 0 of a fresh memo file — next-free = 1 (u32 LE at
offset 0), block size = 512 (u16 LE at offset 4), rest zero. -/
def dbf_memo_create_bytes : List Nat :=
  pack32LE 1 ++ pack16LE 512 ++ List.replicate 506 0

/-- Framing total of one memo write: payload + terminator for dBase III,
8-byte header + payload + terminator for dBase IV+. -/
def memoTotal (dbfVersion : Nat) (data : List Nat) : Nat :=
  if dbfVersion = 3 then data.length + 1 else 8 + data.length + 1

/-- Blocks needed for one appending memo write. -/
def memoBlocks (dbfVersion : Nat) (data : List Nat) : Nat :=
  (memoTotal dbfVersion data + 511) / 512

/-- `dbf_memo_write_buffer` on an existing memo file.  `dbfVersion` models the
companion `.DBF` version byte read by `_get_dbf_version`.  Returns the start
block and the updated file bytes. -/
def dbf_memo_write_buffer (dbfVersion memoType : Nat) (data : List Nat)
    (file : List Nat) : Nat × List Nat :=
  let nf0 := readU32LE file 0
  let next_free := if nf0 < 1 then 1 else nf0
  let start_block := next_free
  let total := memoTotal dbfVersion data
  let blocks_needed := (total + 511) / 512
  let body :=
    if dbfVersion = 3 then data ++ [0x1A]
    else pack32LE memoType ++ pack32LE data.length ++ data ++ [0x1A]
  let padded := body ++ List.replicate (blocks_needed * 512 - total) 0
  let f1 := writeBytesAt file (start_block * 512) padded
  let f2 := writeBytesAt f1 0 (pack32LE (start_block + blocks_needed))
  (start_block, f2)

/-- `dbf_memo_write_buffer_at_block`: write a memo at a caller-chosen block.
Note the source reads and rewrites the next-free pointer with `">L"`
(big-endian), unlike every other access to that header word. -/
def dbf_memo_write_buffer_at_block (dbfVersion memoType : Nat) (data : List Nat)
    (blockNum : Nat) (file : List Nat) : Nat × List Nat :=
  let blocks_needed :=
    if dbfVersion = 3 then (data.length + 1 + 511) / 512
    else (8 + data.length + 511) / 512
  let body :=
    if dbfVersion = 3 then
      data ++ [0x1A] ++ List.replicate (blocks_needed * 512 - (data.length + 1)) 0
    else
      pack32LE memoType ++ pack32LE data.length ++ data ++
        List.replicate (blocks_needed * 512 - (8 + data.length)) 0
  let f1 := writeBytesAt file (blockNum * 512) body
  let f2 :=
    if 4 ≤ f1.length then
      let current := readU32BE f1 0
      let new_next := blockNum + blocks_needed
      if current < new_next then writeBytesAt f1 0 (pack32BE new_next) else f1
    else f1
  (blockNum, f2)

/-- Trace of sequential appending writes: list of (returned block, file state
after the write). -/
def memoWriteSeq (dbfVersion memoType : Nat) :
    List (List Nat) → List Nat → List (Nat × List Nat)
  | [], _ => []
  | p :: rest, file =>
    let r := dbf_memo_write_buffer dbfVersion memoType p file
    r :: memoWriteSeq dbfVersion memoType rest r.2

/-- Total blocks consumed by a list of appending writes. -/
def memoPartialBlocks (dbfVersion : Nat) (ps : List (List Nat)) : Nat :=
  (ps.map (memoBlocks dbfVersion)).sum

theorem memoWriteSeq_length (ver mt : Nat) (ps : List (List Nat)) (file : List Nat) :
    (memoWriteSeq ver mt ps file).length = ps.length := by
  induction ps generalizing file with
  | nil => rfl
  | cons p rest ih => simp [memoWriteSeq, ih]

theorem memo_write_step (ver mt : Nat) (p : List Nat) (file : List Nat) (N : Nat)
    (hN : readU32LE file 0 = N) (h1 : 1 ≤ N)
    (hbound : N + memoBlocks ver p < 4294967296) :
    (dbf_memo_write_buffer ver mt p file).1 = N ∧
    readU32LE (dbf_memo_write_buffer ver mt p file).2 0 = N + memoBlocks ver p := by
  have hlt : ¬ N < 1 := by omega
  have hfst : (dbf_memo_write_buffer ver mt p file).1
      = (if readU32LE file 0 < 1 then 1 else readU32LE file 0) := rfl
  have hsnd : readU32LE (dbf_memo_write_buffer ver mt p file).2 0
      = ((if readU32LE file 0 < 1 then 1 else readU32LE file 0)
          + (memoTotal ver p + 511) / 512) % 4294967296 := by
    show readU32LE (writeBytesAt _ 0 (pack32LE _)) 0 = _
    rw [readU32LE_pack32LE]
  constructor
  · rw [hfst, hN, if_neg hlt]
  · rw [hsnd, hN, if_neg hlt]
    have hb : memoBlocks ver p = (memoTotal ver p + 511) / 512 := rfl
    omega

theorem memoSeq_invariant (ver mt : Nat) (ps : List (List Nat)) :
    ∀ (file : List Nat) (N : Nat),
      readU32LE file 0 = N → 1 ≤ N →
      N + memoPartialBlocks ver ps < 4294967296 →
      ∀ k, k < ps.length →
        (List.getD (memoWriteSeq ver mt ps file) k (0, [])).1
          = N + memoPartialBlocks ver (ps.take k) ∧
        readU32LE (List.getD (memoWriteSeq ver mt ps file) k (0, [])).2 0
          = N + memoPartialBlocks ver (ps.take (k + 1)) := by
  induction ps with
  | nil => intro file N _ _ _ k hk; exact absurd hk (by simp)
  | cons p rest ih =>
    intro file N hN h1 hbound k hk
    have hblocks : memoPartialBlocks ver (p :: rest)
        = memoBlocks ver p + memoPartialBlocks ver rest := by
      simp [memoPartialBlocks]
    have hstep := memo_write_step ver mt p file N hN h1 (by omega)
    cases k with
    | zero =>
      have ht0 : memoPartialBlocks ver ((p :: rest).take 0) = 0 := by
        simp [memoPartialBlocks]
      have ht1 : memoPartialBlocks ver ((p :: rest).take 1) = memoBlocks ver p := by
        simp [memoPartialBlocks]
      simp only [memoWriteSeq, List.getD_cons_zero, ht0, ht1, Nat.add_zero]
      exact hstep
    | succ k =>
      have hk' : k < rest.length := by simpa using hk
      have hrec := ih (dbf_memo_write_buffer ver mt p file).2 (N + memoBlocks ver p)
        hstep.2 (by omega) (by omega) k hk'
      have hta : memoPartialBlocks ver ((p :: rest).take (k + 1))
          = memoBlocks ver p + memoPartialBlocks ver (rest.take k) := by
        simp [memoPartialBlocks]
      have htb : memoPartialBlocks ver ((p :: rest).take (k + 2))
          = memoBlocks ver p + memoPartialBlocks ver (rest.take (k + 1)) := by
        simp [memoPartialBlocks]
      simp only [memoWriteSeq, List.getD_cons_succ]
      constructor
      · rw [hrec.1, hta]; omega
      · rw [hrec.2, htb]; omega

theorem sum_take_succ (l : List Nat) (k : Nat) (hk : k < l.length) :
    (l.take (k + 1)).sum = (l.take k).sum + l.getD k 0 := by
  induction l generalizing k with
  | nil => simp at hk
  | cons a t ih =>
    cases k with
    | zero => simp
    | succ k =>
      have h := ih k (by simpa using hk)
      simp only [List.take_succ_cons, List.sum_cons, h, List.getD_cons_succ]
      omega

theorem memoPartialBlocks_take_succ (ver : Nat) (ps : List (List Nat)) (k : Nat)
    (hk : k < ps.length) :
    memoPartialBlocks ver (ps.take (k + 1))
      = memoPartialBlocks ver (ps.take k) + memoBlocks ver (ps.getD k []) := by
  have hk2 : k < (ps.map (memoBlocks ver)).length := by simpa using hk
  unfold memoPartialBlocks
  rw [List.map_take, List.map_take, sum_take_succ _ k hk2]
  congr 1
  rw [List.getD_eq_getElem _ _ hk2, List.getElem_map, List.getD_eq_getElem _ _ hk]

/-- C5: Memo block advance.  Starting from a freshly created `.DBT`, the `k`-th
appending write of payload `pₖ` (framing total `tₖ = |pₖ| + 1` for dBase III,
`|pₖ| + 9` for dBase IV+) returns start block `1 + Σᵢ<ₖ ⌈tᵢ/512⌉`, and after the
write the free-block pointer in block 0 equals that block plus `⌈tₖ/512⌉`. -/
theorem memo_block_advance (ver mt : Nat) (ps : List (List Nat)) (k : Nat)
    (hk : k < ps.length)
    (hbound : 1 + memoPartialBlocks ver ps < 4294967296) :
    (List.getD (memoWriteSeq ver mt ps dbf_memo_create_bytes) k (0, [])).1
      = 1 + memoPartialBlocks ver (ps.take k) ∧
    readU32LE (List.getD (memoWriteSeq ver mt ps dbf_memo_create_bytes) k (0, [])).2 0
      = (List.getD (memoWriteSeq ver mt ps dbf_memo_create_bytes) k (0, [])).1
        + memoBlocks ver (ps.getD k []) := by
  have hfresh : readU32LE dbf_memo_create_bytes 0 = 1 := by decide
  have h := memoSeq_invariant ver mt ps dbf_memo_create_bytes 1 hfresh (le_refl 1)
    hbound k hk
  refine ⟨h.1, ?_⟩
  rw [h.2, h.1, memoPartialBlocks_take_succ ver ps k hk, Nat.add_assoc]

/-- C5 witness: two dBase IV+ writes of 600 and 20 bytes from a fresh file;
the second write starts at block `1 + ⌈609/512⌉ = 3`. -/
theorem memo_block_advance_witness :
    (1 < ([List.replicate 600 65, List.replicate 20 66] : List (List Nat)).length
      ∧ 1 + memoPartialBlocks 4 [List.replicate 600 65, List.replicate 20 66]
          < 4294967296) ∧
    (List.getD (memoWriteSeq 4 1 [List.replicate 600 65, List.replicate 20 66]
        dbf_memo_create_bytes) 1 (0, [])).1
      = 1 + memoPartialBlocks 4 ([List.replicate 600 65, List.replicate 20 66].take 1) :=
  ⟨⟨by decide, by decide⟩,
    (memo_block_advance 4 1 [List.replicate 600 65, List.replicate 20 66] 1
      (by decide) (by decide)).1⟩

/-- C1 (code bug): `dbf_memo_write_buffer_at_block` reads and rewrites the
free-block pointer with `">L"` (big-endian).  On a fresh `.DBT` (pointer bytes
`01 00 00 00`, little-endian value 1) a 50-byte dBase IV+ memo written at
block 1 ends at block 2, so the spec requires the pointer to be extended to 2;
the code misreads the pointer as `16777216`, concludes no extension is needed,
and leaves the little-endian pointer at 1. -/
theorem memo_write_at_block_endianness_bug :
    (dbf_memo_write_buffer_at_block 4 1 (List.replicate 50 7) 1
        dbf_memo_create_bytes).1 = 1 ∧
    readU32LE (dbf_memo_write_buffer_at_block 4 1 (List.replicate 50 7) 1
        dbf_memo_create_bytes).2 0 = 1 ∧
    readU32BE (dbf_memo_write_buffer_at_block 4 1 (List.replicate 50 7) 1
        dbf_memo_create_bytes).2 0 = 16777216 := by
  refine ⟨rfl, ?_, ?_⟩ <;> decide

/-! ## Table codec (.DBF) -/

/-- `str.upper()` on a single latin-1 byte. -/
def upperByte (c : Nat) : Nat := if 97 ≤ c ∧ c ≤ 122 then c - 32 else c

/-- A field descriptor (`DBFColumn`).  `name` is the byte string of the
field name; `ftype` the type byte (`'C'`=67, `'N'`=78, `'L'`=76, `'D'`=68,
`'M'`=77). -/
structure DBFColumn where
  name : List Nat
  ftype : Nat
  length : Nat
  decimals : Nat
  offset : Nat := 0
deriving DecidableEq, Inhabited

structure DBFHeader where
  version : Nat := 0
  year : Nat := 0
  month : Nat := 0
  day : Nat := 0
  record_count : Nat := 0
  header_size : Nat := 0
  record_size : Nat := 0
  table_flags : Nat := 0
  language_driver : Nat := 0
  fields : List DBFColumn := []
  field_count : Nat := 0
deriving DecidableEq, Inhabited

def DBF_LANG_US : Nat := 1

def has_memo_field (h : DBFHeader) : Bool :=
  h.fields.any (fun f => upperByte f.ftype = 77)

/-- Offset assignment pass: the first field starts at offset 1 (offset 0 is
the delete flag). -/
def assignOffsets : List DBFColumn → Nat → List DBFColumn
  | [], _ => []
  | f :: fs, o => { f with offset := o } :: assignOffsets fs (o + f.length)

/-- `init_dbf_header`. -/
def init_dbf_header (h : DBFHeader) : DBFHeader :=
  let has_memo := has_memo_field h
  let h1 :=
    if h.version = 3 then { h with table_flags := 0, language_driver := 0 }
    else { h with table_flags := 0,
                  language_driver :=
                    if h.language_driver = 0 then DBF_LANG_US else h.language_driver }
  let h2 :=
    if h1.version = 0 then
      { h1 with version := if has_memo then 5 else 4 }
    else if h1.version = 4 ∧ has_memo then { h1 with version := 5 }
    else if h1.version = 5 ∧ ¬ has_memo then { h1 with version := 4 }
    else h1
  { h2 with
    record_count := 0,
    fields := assignOffsets h2.fields 1,
    record_size := h2.fields.foldl (fun o f => o + f.length) 1,
    header_size := 32 + h2.field_count * 32 + 1 }

/-- `field.name.encode('ascii', errors='replace')`, then truncated to the
11 bytes the descriptor can hold.  (For names longer than 11 bytes the Python
slice assignment even shrinks the 32-byte buffer — a source quirk outside the
claims, which all constrain names to at most 11 bytes.) -/
def encodeName (n : List Nat) : List Nat :=
  (n.map (fun c => if c < 128 then c else 63)).take 11

/-- One 32-byte field descriptor, laid out exactly as `write_dbf_header`
assigns it: name at 0..10 (null-padded), type byte at 11, length at 16,
decimals at 17, reserved bytes zero. -/
def descBytes (f : DBFColumn) : List Nat :=
  encodeName f.name ++ List.replicate (11 - (encodeName f.name).length) 0 ++
    [f.ftype % 256] ++ List.replicate 4 0 ++ [f.length % 256, f.decimals % 256] ++
    List.replicate 14 0

/-- The 32-byte primary header, as `write_dbf_header` fills it. -/
def mainHeaderBytes (h : DBFHeader) : List Nat :=
  [h.version % 256, h.year % 256, h.month % 256, h.day % 256] ++
    pack32LE h.record_count ++ pack16LE h.header_size ++ pack16LE h.record_size ++
    List.replicate 16 0 ++ [h.table_flags % 256, h.language_driver % 256] ++ [0, 0]

/-- `write_dbf_header`: primary header, then one descriptor per field (up to
`field_count`), the terminator `0x0D`, and the end-of-file marker `0x1A`. -/
def write_dbf_header (h : DBFHeader) : List Nat :=
  mainHeaderBytes h ++ (h.fields.take h.field_count).flatMap descBytes ++ [0x0D, 0x1A]

/-- `dbf_file_create`: initialize the header, emit the `.DBF` bytes, and
create the companion `.DBT` only when the initialized version byte is 0x05.
Returns (initialized header, .DBF bytes, optional .DBT bytes). -/
def dbf_file_create (header : DBFHeader) : DBFHeader × List Nat × Option (List Nat) :=
  let h := init_dbf_header header
  (h, write_dbf_header h,
    if h.version = 5 then some dbf_memo_create_bytes else none)

/-- `dbf_file_create_dbase3`. -/
def dbf_file_create_dbase3 (header : DBFHeader) :
    DBFHeader × List Nat × Option (List Nat) :=
  dbf_file_create { header with version := 3, table_flags := 0, language_driver := 0 }

/-- A one-memo-field schema used as a concrete dBase III counterexample. -/
def memoSchema3 : DBFHeader :=
  { fields := [{ name := [78, 79, 84, 69, 83], ftype := 77, length := 10, decimals := 0 }],
    field_count := 1 }

/-- C2 counterexample: creating a dBase III (version byte 0x03) table from a
schema containing a memo field does **not** create a companion `.DBT` —
`dbf_file_create` creates one only when the initialized version is 0x05,
and `init_dbf_header` leaves a 0x03 version unchanged. -/
theorem dbase3_memo_schema_creates_no_dbt :
    has_memo_field memoSchema3 = true ∧
    (dbf_file_create_dbase3 memoSchema3).1.version = 3 ∧
    (dbf_file_create_dbase3 memoSchema3).2.2 = none := by
  refine ⟨by decide, by decide, by decide⟩

/-- C2 (amended): for a schema with a memo field and version byte 0, 4 or 5,
creation produces a `.DBT` whose free-block pointer (u32 LE at offset 0)
equals 1 and whose block size field is 512; a dBase III creation of the same
schema produces no `.DBT`. -/
theorem memo_dbt_created_iff_version5 (h : DBFHeader)
    (hm : has_memo_field h = true)
    (hv : h.version = 0 ∨ h.version = 4 ∨ h.version = 5) :
    (dbf_file_create h).2.2 = some dbf_memo_create_bytes ∧
    readU32LE dbf_memo_create_bytes 0 = 1 ∧
    readU16LE dbf_memo_create_bytes 4 = 512 ∧
    (dbf_file_create_dbase3 h).2.2 = none := by
  have hver : (init_dbf_header h).version = 5 := by
    unfold init_dbf_header
    rcases hv with hv | hv | hv <;> simp [hv, hm]
  have hver3 : (init_dbf_header { h with version := 3, table_flags := 0, language_driver := 0 }).version = 3 := by
    unfold init_dbf_header
    simp [hm]
  refine ⟨?_, by decide, by decide, ?_⟩
  · unfold dbf_file_create
    simp [hver]
  · unfold dbf_file_create_dbase3 dbf_file_create
    simp [hver3]

/-- C2 witness: a version-0 schema with one memo field. -/
theorem memo_dbt_created_witness :
    (has_memo_field { memoSchema3 with version := 0 } = true ∧
      ({ memoSchema3 with version := 0 } : DBFHeader).version = 0) ∧
    (dbf_file_create { memoSchema3 with version := 0 }).2.2
      = some dbf_memo_create_bytes :=
  ⟨⟨by decide, by decide⟩,
    (memo_dbt_created_iff_version5 { memoSchema3 with version := 0 }
      (by decide) (Or.inl (by decide))).1⟩

/-- The field-name bytes collected by `read_dbf_header`: every non-zero byte
among the first 11 bytes of the descriptor. -/
def readFieldName (fb : List Nat) : List Nat :=
  (fb.take 11).filter (fun c => c ≠ 0)

/-- Parse one 32-byte field descriptor. -/
def parseDesc (fb : List Nat) : DBFColumn :=
  { name := readFieldName fb, ftype := byteAt fb 11, length := byteAt fb 16,
    decimals := byteAt fb 17, offset := 0 }

/-- The descriptor-reading loop of `read_dbf_header`: peek one byte, stop on
`0x0D` or end of file, otherwise consume a 32-byte descriptor; capped at
64 fields (the fuel). -/
def readFields : Nat → List Nat → List DBFColumn
  | 0, _ => []
  | _ + 1, [] => []
  | fuel + 1, b :: bs =>
    if b = 13 then []
    else parseDesc ((b :: bs).take 32) :: readFields fuel ((b :: bs).drop 32)

/-- `read_dbf_header`: parse the 32-byte primary header, read descriptors up
to the 0x0D terminator (at most 64), recompute offsets and the record size
from the field widths. -/
def read_dbf_header (bytes : List Nat) : DBFHeader :=
  let buf := bytes.take 32
  let fields0 := readFields 64 (bytes.drop 32)
  { version := byteAt buf 0, year := byteAt buf 1, month := byteAt buf 2,
    day := byteAt buf 3, record_count := readU32LE buf 4,
    header_size := readU16LE buf 8,
    record_size := fields0.foldl (fun o f => o + f.length) 1,
    table_flags := byteAt buf 28, language_driver := byteAt buf 29,
    fields := assignOffsets fields0 1, field_count := fields0.length }

/-- The schema-visible projection of a column (name, type, length, decimals);
the computed offset is excluded. -/
def colSpec (f : DBFColumn) : List Nat × Nat × Nat × Nat :=
  (f.name, f.ftype, f.length, f.decimals)

/-- Well-formedness of a schema column for the round-trip claim: name of at
most 11 non-NUL ASCII bytes none of which is the 0x0D terminator, and
byte-sized type/length/decimals. -/
def wfCol (f : DBFColumn) : Prop :=
  f.name.length ≤ 11 ∧ (∀ c ∈ f.name, 0 < c ∧ c < 128 ∧ c ≠ 13) ∧
    f.ftype ≤ 255 ∧ f.length ≤ 255 ∧ f.decimals ≤ 255

instance (f : DBFColumn) : Decidable (wfCol f) := by
  unfold wfCol; infer_instance

theorem map_ascii_id (l : List Nat) (hl : ∀ c ∈ l, c < 128) :
    l.map (fun c => if c < 128 then c else 63) = l := by
  induction l with
  | nil => rfl
  | cons a t ih =>
    have ha : a < 128 := hl a (by simp)
    simp only [List.map_cons, if_pos ha, List.cons.injEq, true_and]
    exact ih (fun c hc => hl c (by simp [hc]))

theorem encodeName_eq (f : DBFColumn) (hf : wfCol f) : encodeName f.name = f.name := by
  unfold encodeName
  rw [map_ascii_id _ (fun c hc => (hf.2.1 c hc).2.1)]
  exact List.take_of_length_le (le_trans hf.1 (by omega))

theorem encodeName_le (n : List Nat) : (encodeName n).length ≤ 11 := by
  simp [encodeName]

theorem descBytes_split (f : DBFColumn) :
    descBytes f = (encodeName f.name ++
        List.replicate (11 - (encodeName f.name).length) 0) ++
      ([f.ftype % 256] ++ List.replicate 4 0 ++
        [f.length % 256, f.decimals % 256] ++ List.replicate 14 0) := by
  simp [descBytes, List.append_assoc]

theorem pad11_length (n : List Nat) :
    (encodeName n ++ List.replicate (11 - (encodeName n).length) 0).length = 11 := by
  have := encodeName_le n
  simp only [List.length_append, List.length_replicate]
  omega

theorem descBytes_length (f : DBFColumn) : (descBytes f).length = 32 := by
  rw [descBytes_split, List.length_append, pad11_length]
  rfl

theorem descBytes_head_ne (f : DBFColumn) (hf : wfCol f) :
    byteAt (descBytes f) 0 ≠ 13 := by
  cases hname : f.name with
  | nil =>
    unfold descBytes
    rw [hname]
    simp [byteAt, encodeName, List.replicate_succ]
  | cons c cs =>
    have hc := hf.2.1 c (by simp [hname])
    have he : encodeName (c :: cs)
        = (if c < 128 then c else 63) ::
            (cs.map (fun x => if x < 128 then x else 63)).take 10 := rfl
    unfold descBytes
    rw [hname, he]
    simp only [byteAt, List.cons_append, List.getD_cons_zero, if_pos hc.2.1]
    omega

theorem parseDesc_descBytes (f : DBFColumn) (hf : wfCol f) :
    colSpec (parseDesc (descBytes f)) = colSpec f := by
  have hname : readFieldName (descBytes f) = f.name := by
    unfold readFieldName
    rw [descBytes_split]
    rw [List.take_append_of_le_length (by rw [pad11_length])]
    have htake : (encodeName f.name ++
        List.replicate (11 - (encodeName f.name).length) 0).take 11
        = encodeName f.name ++ List.replicate (11 - (encodeName f.name).length) 0 :=
      List.take_of_length_le (by rw [pad11_length])
    rw [htake, List.filter_append, encodeName_eq f hf]
    have h1 : f.name.filter (fun c => c ≠ 0) = f.name := by
      rw [List.filter_eq_self]
      intro c hc
      have := (hf.2.1 c hc).1
      simp; omega
    have h2 : (List.replicate (11 - f.name.length) 0).filter
        (fun c => (c : Nat) ≠ 0) = [] := by
      rw [List.filter_eq_nil_iff]
      intro c hc
      rw [List.eq_of_mem_replicate hc]
      simp
    rw [h1, h2, List.append_nil]
  have htail : ∀ j, byteAt (descBytes f) (11 + j)
      = byteAt ([f.ftype % 256] ++ List.replicate 4 0 ++
          [f.length % 256, f.decimals % 256] ++ List.replicate 14 0) j := by
    intro j
    rw [descBytes_split]
    unfold byteAt
    rw [List.getD_append_right _ _ _ _ (by rw [pad11_length]; omega)]
    rw [pad11_length]
    congr 1
    omega
  have ht : byteAt (descBytes f) 11 = f.ftype % 256 := by
    have := htail 0; simpa using this
  have hl : byteAt (descBytes f) 16 = f.length % 256 := by
    have := htail 5; simpa using this
  have hd : byteAt (descBytes f) 17 = f.decimals % 256 := by
    have := htail 6; simpa using this
  have hft : f.ftype < 256 := by have := hf.2.2.1; omega
  have hle : f.length < 256 := by have := hf.2.2.2.1; omega
  have hde : f.decimals < 256 := by have := hf.2.2.2.2; omega
  simp only [colSpec, parseDesc, hname, ht, hl, hd]
  rw [Nat.mod_eq_of_lt hft, Nat.mod_eq_of_lt hle, Nat.mod_eq_of_lt hde]

theorem readFields_cons (f : DBFColumn) (rest : List Nat) (fuel : Nat)
    (hf : wfCol f) :
    readFields (fuel + 1) (descBytes f ++ rest)
      = parseDesc (descBytes f) :: readFields fuel rest := by
  have hlen := descBytes_length f
  have hhead := descBytes_head_ne f hf
  cases hdesc : descBytes f with
  | nil => rw [hdesc] at hlen; simp at hlen
  | cons b bs =>
    rw [hdesc] at hlen hhead
    have hb : b ≠ 13 := by
      simpa [byteAt] using hhead
    have e1 : (b :: (bs ++ rest)).take 32 = b :: bs := by
      have h := List.take_left (b :: bs) rest
      rw [hlen] at h
      simpa using h
    have e2 : (b :: (bs ++ rest)).drop 32 = rest := by
      have h := List.drop_left (b :: bs) rest
      rw [hlen] at h
      simpa using h
    have hstep : readFields (fuel + 1) (b :: (bs ++ rest))
        = if b = 13 then []
          else parseDesc ((b :: (bs ++ rest)).take 32) ::
            readFields fuel ((b :: (bs ++ rest)).drop 32) := rfl
    show readFields (fuel + 1) (b :: (bs ++ rest)) = _
    rw [hstep, if_neg hb, e1, e2]

theorem readFields_terminator (fuel : Nat) (tail : List Nat) :
    readFields fuel (13 :: tail) = [] := by
  cases fuel with
  | zero => rfl
  | succ fuel => simp [readFields]

theorem readFields_flatMap (S : List DBFColumn) (tail : List Nat) :
    ∀ fuel, S.length ≤ fuel → (∀ f ∈ S, wfCol f) →
      readFields fuel (S.flatMap descBytes ++ 13 :: tail)
        = S.map (fun f => parseDesc (descBytes f)) := by
  induction S with
  | nil =>
    intro fuel _ _
    simpa using readFields_terminator fuel tail
  | cons f S ih =>
    intro fuel hfuel hwf
    cases fuel with
    | zero => simp at hfuel
    | succ fuel =>
      have h1 : (f :: S).flatMap descBytes ++ 13 :: tail
          = descBytes f ++ (S.flatMap descBytes ++ 13 :: tail) := by
        simp [List.flatMap_cons, List.append_assoc]
      rw [h1, readFields_cons f _ fuel (hwf f (by simp))]
      rw [ih fuel (by simpa using hfuel) (fun g hg => hwf g (by simp [hg]))]
      simp

theorem assignOffsets_map_colSpec (S : List DBFColumn) :
    ∀ o, (assignOffsets S o).map colSpec = S.map colSpec := by
  induction S with
  | nil => intro o; rfl
  | cons f S ih => intro o; simp [assignOffsets, colSpec, ih]

theorem assignOffsets_length (S : List DBFColumn) :
    ∀ o, (assignOffsets S o).length = S.length := by
  induction S with
  | nil => intro o; rfl
  | cons f S ih => intro o; simp [assignOffsets, ih]

theorem assignOffsets_wf (S : List DBFColumn) (hwf : ∀ f ∈ S, wfCol f) :
    ∀ o, ∀ g ∈ assignOffsets S o, wfCol g := by
  induction S with
  | nil => intro o g hg; simp [assignOffsets] at hg
  | cons f S ih =>
    intro o g hg
    simp only [assignOffsets, List.mem_cons] at hg
    rcases hg with hg | hg
    · subst hg
      have := hwf f (by simp)
      exact this
    · exact ih (fun x hx => hwf x (by simp [hx])) _ g hg

theorem foldl_add_length (S : List DBFColumn) :
    ∀ a, S.foldl (fun o f => o + f.length) a = a + (S.map (·.length)).sum := by
  induction S with
  | nil => intro a; simp
  | cons f S ih => intro a; simp [ih]; omega

theorem map_length_of_map_colSpec {S T : List DBFColumn}
    (h : S.map colSpec = T.map colSpec) :
    S.map (·.length) = T.map (·.length) := by
  have : S.map (·.length) = (S.map colSpec).map (fun q => q.2.2.1) := by
    simp [colSpec]
  rw [this, h]
  simp [colSpec]

theorem mainHeaderBytes_length (h : DBFHeader) : (mainHeaderBytes h).length = 32 := by
  simp [mainHeaderBytes, pack32LE, pack16LE]

/-- The header handed to `dbf_file_create` for a schema `S` (the field list
with `field_count = |S|`, as every caller in the repository sets it up). -/
def mkSchemaHeader (S : List DBFColumn) (ver y m d lang : Nat) : DBFHeader :=
  { version := ver, year := y, month := m, day := d, language_driver := lang, fields := S, field_count := S.length }

/-- C4: create-then-reopen round trip.  For a schema of at most 64 well-formed
columns with total record size at most 4096, creating the table and re-reading
the emitted bytes reproduces the field list (names, types, lengths, decimals),
header size `32 + 32·|S| + 1`, record size `1 + Σ len`, and record count 0. -/
theorem create_reopen_roundtrip (S : List DBFColumn) (ver y m d lang : Nat)
    (hwf : ∀ f ∈ S, wfCol f) (hcount : S.length ≤ 64)
    (hsize : 1 + (S.map (·.length)).sum ≤ 4096) :
    (read_dbf_header (dbf_file_create
        (mkSchemaHeader S ver y m d lang)).2.1).fields.map colSpec
      = S.map colSpec ∧
    (read_dbf_header (dbf_file_create
        (mkSchemaHeader S ver y m d lang)).2.1).header_size
      = 32 + 32 * S.length + 1 ∧
    (read_dbf_header (dbf_file_create
        (mkSchemaHeader S ver y m d lang)).2.1).record_size
      = 1 + (S.map (·.length)).sum ∧
    (read_dbf_header (dbf_file_create
        (mkSchemaHeader S ver y m d lang)).2.1).record_count = 0 := by
  set h0 : DBFHeader := mkSchemaHeader S ver y m d lang with hh0
  set h' := init_dbf_header h0 with hh'
  have hfields : h'.fields = assignOffsets S 1 := by
    simp only [hh', init_dbf_header]
    try split_ifs <;> try rfl
  have hfc : h'.field_count = S.length := by
    simp only [hh', init_dbf_header]
    try split_ifs <;> try rfl
  have hhs : h'.header_size = 32 + S.length * 32 + 1 := by
    simp only [hh', init_dbf_header]
    try split_ifs <;> try rfl
  have hrc : h'.record_count = 0 := by
    simp only [hh', init_dbf_header]
    try split_ifs <;> try rfl
  have hwrite : (dbf_file_create h0).2.1 = write_dbf_header h' := rfl
  have hT : ∀ g ∈ assignOffsets S 1, wfCol g := assignOffsets_wf S hwf 1
  have htake : h'.fields.take h'.field_count = assignOffsets S 1 := by
    rw [hfields, hfc]
    exact List.take_of_length_le (by rw [assignOffsets_length])
  have hbytes : write_dbf_header h'
      = mainHeaderBytes h' ++
        ((assignOffsets S 1).flatMap descBytes ++ 13 :: [26]) := by
    unfold write_dbf_header
    rw [htake]
    simp [List.append_assoc]
  have hdrop : (write_dbf_header h').drop 32
      = (assignOffsets S 1).flatMap descBytes ++ 13 :: [26] := by
    rw [hbytes]
    rw [show (32 : Nat) = (mainHeaderBytes h').length from (mainHeaderBytes_length h').symm]
    exact List.drop_left _ _
  have htake32 : (write_dbf_header h').take 32 = mainHeaderBytes h' := by
    rw [hbytes]
    rw [show (32 : Nat) = (mainHeaderBytes h').length from (mainHeaderBytes_length h').symm]
    exact List.take_left _ _
  have hread : readFields 64 ((write_dbf_header h').drop 32)
      = (assignOffsets S 1).map (fun f => parseDesc (descBytes f)) := by
    rw [hdrop]
    exact readFields_flatMap _ _ 64 (by rw [assignOffsets_length]; exact hcount) hT
  have hspec : ((assignOffsets S 1).map
      (fun f => parseDesc (descBytes f))).map colSpec = S.map colSpec := by
    rw [List.map_map]
    have : ∀ g ∈ assignOffsets S 1,
        (colSpec ∘ fun f => parseDesc (descBytes f)) g = colSpec g := by
      intro g hg
      exact parseDesc_descBytes g (hT g hg)
    rw [List.map_congr_left this]
    exact assignOffsets_map_colSpec S 1
  rw [hwrite]
  unfold read_dbf_header
  refine ⟨?_, ?_, ?_, ?_⟩
  · simp only [hread]
    rw [assignOffsets_map_colSpec]
    exact hspec
  · simp only [htake32]
    have h8 : readU16LE (mainHeaderBytes h') 8
        = h'.header_size % 256 + 256 * (h'.header_size / 256 % 256) := rfl
    rw [h8, hhs]
    have : 32 + S.length * 32 + 1 < 65536 := by omega
    omega
  · simp only [hread]
    rw [foldl_add_length]
    have hlens : ((assignOffsets S 1).map
        (fun f => parseDesc (descBytes f))).map (·.length) = S.map (·.length) :=
      map_length_of_map_colSpec hspec
    rw [hlens]
  · simp only [htake32]
    have h4 : readU32LE (mainHeaderBytes h') 4
        = h'.record_count % 256 + 256 * (h'.record_count / 256 % 256)
          + 65536 * (h'.record_count / 65536 % 256)
          + 16777216 * (h'.record_count / 16777216 % 256) := rfl
    rw [h4, hrc]

/-- Scenario A schema `ID N(5,0), NAME C(30,0)` from §8 of the spec. -/
def scenarioASchema : List DBFColumn :=
  [{ name := [73, 68], ftype := 78, length := 5, decimals := 0 },
   { name := [78, 65, 77, 69], ftype := 67, length := 30, decimals := 0 }]

/-- C4 witness: the §8 scenario A schema `ID N(5,0), NAME C(30,0)`. -/
theorem create_reopen_roundtrip_witness :
    ((∀ f ∈ scenarioASchema, wfCol f) ∧ scenarioASchema.length ≤ 64 ∧
      1 + (scenarioASchema.map (·.length)).sum ≤ 4096) ∧
    (read_dbf_header (dbf_file_create
        (mkSchemaHeader scenarioASchema 3 0 0 0 0)).2.1).record_size = 36 := by
  constructor
  · exact ⟨by decide, by decide, by decide⟩
  · have h := create_reopen_roundtrip scenarioASchema 3 0 0 0 0
      (by decide) (by decide) (by decide)
    have h36 : 1 + (scenarioASchema.map (·.length)).sum = 36 := by decide
    rw [h.2.2.1, h36]

/-! ## Table operations on an open file (delete flags, rows, date, language
driver).  The open table is a header, the file bytes, and the current file
position. -/

structure DBFState where
  header : DBFHeader
  file : List Nat
  pos : Nat
deriving DecidableEq

/-- Pad or truncate a field value to the field length (space fill). -/
def padValue (v : List Nat) (len : Nat) : List Nat :=
  if len < v.length then v.take len else v ++ List.replicate (len - v.length) 32

/-- Row-buffer construction shared by append and write: delete flag `' '` at
byte 0, then each value padded to its field's length at the field's offset.
`values` is the source's 1-indexed list (`values[0]` is ignored). -/
def buildRowBuffer (h : DBFHeader) (values : List (List Nat)) : List Nat :=
  (List.range h.field_count).foldl
    (fun buf i =>
      let f := h.fields.getD i default
      writeBytesAt buf f.offset (padValue (values.getD (i + 1) []) f.length))
    (writeBytesAt (List.replicate h.record_size 0) 0 [32])

/-- `dbf_file_create` as a state producer (file position 0 after reopen). -/
def dbf_file_create_state (h : DBFHeader) : DBFState :=
  { header := (dbf_file_create h).1, file := (dbf_file_create h).2.1, pos := 0 }

/-- `dbf_file_create_dbase3` as a state producer. -/
def dbf_file_create_dbase3_state (h : DBFHeader) : DBFState :=
  dbf_file_create_state { h with version := 3, table_flags := 0, language_driver := 0 }

/-- `dbf_file_append_row`: seek to end, back up one byte over the EOF marker,
write the row, bump the record count in memory and at offset 4, then write a
trailing `0x1A`. -/
def dbf_file_append_row (st : DBFState) (values : List (List Nat)) : DBFState :=
  let startPos := if 0 < st.file.length then st.file.length - 1 else 0
  let row := buildRowBuffer st.header values
  let f1 := writeBytesAt st.file startPos row
  let f2 := writeBytesAt f1 4 (pack32LE (st.header.record_count + 1))
  let f3 := writeBytesAt f2 (startPos + row.length) [0x1A]
  { header := { st.header with record_count := st.header.record_count + 1 },
    file := f3, pos := startPos + row.length + 1 }

/-- `dbf_file_write_row`: write a row buffer at the current position; no
header mutation. -/
def dbf_file_write_row (st : DBFState) (values : List (List Nat)) : DBFState :=
  let row := buildRowBuffer st.header values
  { st with file := writeBytesAt st.file st.pos row, pos := st.pos + row.length }

/-- `dbf_file_seek_to_row`: absolute position `header_size + n·record_size`. -/
def dbf_file_seek_to_row (st : DBFState) (i : Nat) : DBFState :=
  { st with pos := st.header.header_size + i * st.header.record_size }

/-- `dbf_file_set_row_deleted`: one flag byte at the row's start. -/
def dbf_file_set_row_deleted (st : DBFState) (i : Nat) (deleted : Bool) : DBFState :=
  let p := st.header.header_size + i * st.header.record_size
  { st with file := writeBytesAt st.file p [if deleted then 42 else 32], pos := p + 1 }

/-- `dbf_file_set_date`: bytes 1..3, position restored afterwards. -/
def dbf_file_set_date (st : DBFState) (y m d : Nat) : DBFState :=
  { st with
    header := { st.header with year := y, month := m, day := d },
    file := writeBytesAt st.file 1 [y % 256, m % 256, d % 256] }

/-- `dbf_file_set_language_driver`: writes byte 29 unconditionally — the
source performs no version check. -/
def dbf_file_set_language_driver (st : DBFState) (v : Nat) : DBFState :=
  { st with
    header := { st.header with language_driver := v },
    file := writeBytesAt st.file 29 [v % 256] }

theorem init3_lang (h : DBFHeader) :
    (init_dbf_header { h with version := 3, table_flags := 0, language_driver := 0 }).language_driver = 0 := by
  simp only [init_dbf_header]
  try split_ifs <;> try rfl

theorem byteAt_write_header_29 (h : DBFHeader) :
    byteAt (write_dbf_header h) 29 = h.language_driver % 256 := by
  unfold write_dbf_header byteAt
  have h1 : 29 < (mainHeaderBytes h).length := by rw [mainHeaderBytes_length]; omega
  have h2 : 29 < (mainHeaderBytes h ++
      (h.fields.take h.field_count).flatMap descBytes).length := by
    rw [List.length_append]; omega
  rw [List.getD_append _ _ _ _ h2, List.getD_append _ _ _ _ h1]
  rfl

theorem byteAt29_three_writes (f : List Nat) (p1 : Nat) (d1 d2 : List Nat)
    (p3 : Nat) (d3 : List Nat) (h1 : 29 < p1) (h3 : 29 < p3) (hd2 : d2.length = 4) :
    byteAt (writeBytesAt (writeBytesAt (writeBytesAt f p1 d1) 4 d2) p3 d3) 29
      = byteAt f 29 := by
  rw [byteAt_writeBytesAt_lt _ _ _ _ h3, byteAt_writeBytesAt_ge _ _ _ _ (by omega),
    byteAt_writeBytesAt_lt _ _ _ _ h1]

/-- C9 counterexample: on a freshly created dBase III table,
`dbf_file_set_language_driver` happily records a non-zero language driver,
both in the cached header and at file byte 29 — there is no version guard. -/
theorem dbase3_set_language_driver_counterexample :
    (dbf_file_create_dbase3_state (mkSchemaHeader scenarioASchema 0 0 0 0 0)).header.version = 3 ∧
    (dbf_file_set_language_driver
      (dbf_file_create_dbase3_state (mkSchemaHeader scenarioASchema 0 0 0 0 0))
      2).header.language_driver = 2 ∧
    byteAt (dbf_file_set_language_driver
      (dbf_file_create_dbase3_state (mkSchemaHeader scenarioASchema 0 0 0 0 0))
      2).file 29 = 2 := by
  refine ⟨by decide, by decide, by decide⟩

/-- C9 (amended): a dBase III creation leaves the language driver zero (header
field and file byte 29), and every table operation other than
`dbf_file_set_language_driver` (append row, write row, delete-flag, set date)
preserves it; `dbf_file_set_language_driver` itself stores its argument
unconditionally, even on a 0x03 table, so callers must not invoke it there. -/
theorem dbase3_language_driver_ops (st : DBFState) (values : List (List Nat))
    (y m d i v : Nat) (del : Bool)
    (hlen : 31 ≤ st.file.length) (hpos : 30 ≤ st.pos)
    (hhs : 30 ≤ st.header.header_size) :
    (∀ h : DBFHeader, (dbf_file_create_dbase3_state h).header.language_driver = 0 ∧
      byteAt (dbf_file_create_dbase3_state h).file 29 = 0) ∧
    ((dbf_file_append_row st values).header.language_driver
        = st.header.language_driver ∧
      byteAt (dbf_file_append_row st values).file 29 = byteAt st.file 29) ∧
    ((dbf_file_write_row st values).header.language_driver
        = st.header.language_driver ∧
      byteAt (dbf_file_write_row st values).file 29 = byteAt st.file 29) ∧
    ((dbf_file_set_row_deleted st i del).header.language_driver
        = st.header.language_driver ∧
      byteAt (dbf_file_set_row_deleted st i del).file 29 = byteAt st.file 29) ∧
    ((dbf_file_set_date st y m d).header.language_driver
        = st.header.language_driver ∧
      byteAt (dbf_file_set_date st y m d).file 29 = byteAt st.file 29) ∧
    ((dbf_file_set_language_driver st v).header.language_driver = v ∧
      byteAt (dbf_file_set_language_driver st v).file 29 = v % 256) := by
  refine ⟨?_, ⟨rfl, ?_⟩, ⟨rfl, ?_⟩, ⟨rfl, ?_⟩, ⟨rfl, ?_⟩, ⟨rfl, ?_⟩⟩
  · intro h
    refine ⟨init3_lang h, ?_⟩
    show byteAt (write_dbf_header (init_dbf_header _)) 29 = 0
    rw [byteAt_write_header_29, init3_lang]
  · show byteAt (writeBytesAt (writeBytesAt (writeBytesAt st.file
        (if 0 < st.file.length then st.file.length - 1 else 0)
        (buildRowBuffer st.header values)) 4
        (pack32LE (st.header.record_count + 1)))
        ((if 0 < st.file.length then st.file.length - 1 else 0)
          + (buildRowBuffer st.header values).length) [0x1A]) 29 = byteAt st.file 29
    have hp : 0 < st.file.length := by omega
    rw [if_pos hp]
    exact byteAt29_three_writes st.file _ _ _ _ _ (by omega) (by omega)
      (by simp [pack32LE])
  · show byteAt (writeBytesAt st.file st.pos (buildRowBuffer st.header values)) 29
        = byteAt st.file 29
    exact byteAt_writeBytesAt_lt _ _ _ _ (by omega)
  · show byteAt (writeBytesAt st.file
        (st.header.header_size + i * st.header.record_size) _) 29 = byteAt st.file 29
    exact byteAt_writeBytesAt_lt _ _ _ _ (by omega)
  · show byteAt (writeBytesAt st.file 1 [y % 256, m % 256, d % 256]) 29
        = byteAt st.file 29
    exact byteAt_writeBytesAt_ge _ _ _ _ (by simp)
  · show byteAt (writeBytesAt st.file 29 [v % 256]) 29 = v % 256
    have := byteAt_writeBytesAt_inside st.file 29 [v % 256] 0 (by simp)
    simpa [byteAt] using this

/-- C9 witness: the amended theorem applied to a freshly created dBase III
table after seeking to row 0. -/
theorem dbase3_language_driver_ops_witness :
    (31 ≤ (dbf_file_seek_to_row
        (dbf_file_create_dbase3_state (mkSchemaHeader scenarioASchema 0 0 0 0 0))
        0).file.length ∧
      30 ≤ (dbf_file_seek_to_row
        (dbf_file_create_dbase3_state (mkSchemaHeader scenarioASchema 0 0 0 0 0))
        0).pos ∧
      30 ≤ (dbf_file_seek_to_row
        (dbf_file_create_dbase3_state (mkSchemaHeader scenarioASchema 0 0 0 0 0))
        0).header.header_size) ∧
    (dbf_file_set_date (dbf_file_seek_to_row
        (dbf_file_create_dbase3_state (mkSchemaHeader scenarioASchema 0 0 0 0 0))
        0) 95 6 1).header.language_driver
      = (dbf_file_seek_to_row
        (dbf_file_create_dbase3_state (mkSchemaHeader scenarioASchema 0 0 0 0 0))
        0).header.language_driver :=
  ⟨⟨by decide, by decide, by decide⟩,
    (dbase3_language_driver_ops (dbf_file_seek_to_row
        (dbf_file_create_dbase3_state (mkSchemaHeader scenarioASchema 0 0 0 0 0)) 0)
      [] 95 6 1 0 1 false (by decide) (by decide) (by decide)).2.2.2.2.1.1⟩

/-! ## Heap map (bit/nibble/word-packed projection, from the heap builder) -/

inductive HeapFieldType
  | none | word | longint | bitflags | nibble | byte
deriving DecidableEq

structure HeapFieldSpec where
  dbf_field_idx : Nat
  heap_field_type : HeapFieldType
  heap_offset : Nat := 0
  convert_to_jdn : Bool := false
  bit_mask : Nat := 0
  nibble_shift : Nat := 0
deriving DecidableEq

/-- Final-size rounding: pad to the next multiple of 8 bytes. -/
def roundUp8 (n : Nat) : Nat := if n % 8 ≠ 0 then (n / 8 + 1) * 8 else n

/-- One step of `calculate_heap_layout`: place a spec at the current cursor
with the type's alignment/sharing rule.  Returns the placed spec, new cursor,
and the open-byte trackers (`last_bitflags_offset` / `last_nibble_offset`,
with `Option` for the source's `-1` sentinel); `none` for an unknown type. -/
def layoutStep (s : HeapFieldSpec) (cur : Nat) (lastB lastN : Option Nat) :
    Option (HeapFieldSpec × Nat × Option Nat × Option Nat) :=
  match s.heap_field_type with
  | .none => Option.none
  | .word =>
    let c1 := if cur % 2 ≠ 0 then cur + 1 else cur
    some ({ s with heap_offset := c1 }, c1 + 2, Option.none, Option.none)
  | .longint =>
    let c1 := cur + (4 - cur % 4) % 4
    some ({ s with heap_offset := c1 }, c1 + 4, Option.none, Option.none)
  | .bitflags =>
    match lastB with
    | some b => some ({ s with heap_offset := b }, cur, some b, Option.none)
    | Option.none => some ({ s with heap_offset := cur }, cur + 1, some cur, Option.none)
  | .nibble =>
    match lastN with
    | some b =>
      some ({ s with heap_offset := b, nibble_shift := 4 }, cur, Option.none, Option.none)
    | Option.none =>
      some ({ s with heap_offset := cur, nibble_shift := 0 }, cur + 1, Option.none, some cur)
  | .byte => some ({ s with heap_offset := cur }, cur + 1, Option.none, Option.none)

/-- The loop of `calculate_heap_layout`: place each spec, failing as soon as
the cursor exceeds the budget or a type is unknown; at the end, round up to a
multiple of 8 and compare with the budget.  Returns the verdict together with
the specs as mutated so far (Python mutates them in place). -/
def calcLayoutAux (target : Nat) :
    List HeapFieldSpec → Nat → Option Nat → Option Nat → Bool × List HeapFieldSpec
  | [], cur, _, _ => (decide (roundUp8 cur ≤ target), [])
  | s :: rest, cur, lastB, lastN =>
    match layoutStep s cur lastB lastN with
    | Option.none => (false, s :: rest)
    | some (s', cur', lastB', lastN') =>
      if target < cur' then (false, s' :: rest)
      else
        let r := calcLayoutAux target rest cur' lastB' lastN'
        (r.1, s' :: r.2)

def calculate_heap_layout (specs : List HeapFieldSpec) (target : Nat) :
    Bool × List HeapFieldSpec :=
  calcLayoutAux target specs 0 Option.none Option.none

/-- Modelled from the spec: the greedy pack's final size in declaration order
(2-byte WORD alignment, 4-byte LONGINT alignment, byte-sharing of consecutive
BITFLAGS, low-then-high NIBBLE pairing, any other type flushing the open
byte), rounded up to a multiple of 8; `none` when a spec's type is unknown.
No budget comparison happens along the way. -/
def specPackSize : List HeapFieldSpec → Nat → Option Nat → Option Nat → Option Nat
  | [], cur, _, _ => some (roundUp8 cur)
  | s :: rest, cur, lastB, lastN =>
    match layoutStep s cur lastB lastN with
    | Option.none => Option.none
    | some (_, cur', lastB', lastN') => specPackSize rest cur' lastB' lastN'

theorem layoutStep_mono (s : HeapFieldSpec) (cur : Nat) (lastB lastN : Option Nat)
    (s' : HeapFieldSpec) (cur' : Nat) (lastB' lastN' : Option Nat)
    (h : layoutStep s cur lastB lastN = some (s', cur', lastB', lastN')) :
    cur ≤ cur' := by
  unfold layoutStep at h
  cases hty : s.heap_field_type <;> rw [hty] at h
  · simp at h
  · simp only [Option.some.injEq, Prod.mk.injEq] at h
    obtain ⟨-, h2, -, -⟩ := h
    split_ifs at h2 <;> omega
  · simp only [Option.some.injEq, Prod.mk.injEq] at h
    obtain ⟨-, h2, -, -⟩ := h
    omega
  · cases lastB with
    | none =>
      simp only [Option.some.injEq, Prod.mk.injEq] at h
      obtain ⟨-, h2, -, -⟩ := h
      omega
    | some b =>
      simp only [Option.some.injEq, Prod.mk.injEq] at h
      obtain ⟨-, h2, -, -⟩ := h
      omega
  · cases lastN with
    | none =>
      simp only [Option.some.injEq, Prod.mk.injEq] at h
      obtain ⟨-, h2, -, -⟩ := h
      omega
    | some b =>
      simp only [Option.some.injEq, Prod.mk.injEq] at h
      obtain ⟨-, h2, -, -⟩ := h
      omega
  · simp only [Option.some.injEq, Prod.mk.injEq] at h
    obtain ⟨-, h2, -, -⟩ := h
    omega

theorem specPackSize_mono (specs : List HeapFieldSpec) :
    ∀ cur lastB lastN sz, specPackSize specs cur lastB lastN = some sz → cur ≤ sz := by
  induction specs with
  | nil =>
    intro cur lastB lastN sz h
    simp only [specPackSize, Option.some.injEq] at h
    subst h
    unfold roundUp8
    split_ifs <;> omega
  | cons s rest ih =>
    intro cur lastB lastN sz h
    simp only [specPackSize] at h
    cases hstep : layoutStep s cur lastB lastN with
    | none => rw [hstep] at h; simp at h
    | some q =>
      rw [hstep] at h
      obtain ⟨s', cur', lastB', lastN'⟩ := q
      have h1 := layoutStep_mono s cur lastB lastN s' cur' lastB' lastN' hstep
      have h2 := ih cur' lastB' lastN' sz h
      omega

theorem calcLayoutAux_iff (target : Nat) (specs : List HeapFieldSpec) :
    ∀ cur lastB lastN,
      ((calcLayoutAux target specs cur lastB lastN).1 = true ↔
        ∃ sz, specPackSize specs cur lastB lastN = some sz ∧ sz ≤ target) := by
  induction specs with
  | nil =>
    intro cur lastB lastN
    simp [calcLayoutAux, specPackSize]
  | cons s rest ih =>
    intro cur lastB lastN
    cases hstep : layoutStep s cur lastB lastN with
    | none =>
      simp [calcLayoutAux, specPackSize, hstep]
    | some q =>
      obtain ⟨s', cur', lastB', lastN'⟩ := q
      by_cases hb : target < cur'
      · simp only [calcLayoutAux, specPackSize, hstep, if_pos hb]
        constructor
        · intro h; exact absurd h (by simp)
        · rintro ⟨sz, hsz, hle⟩
          have := specPackSize_mono rest cur' lastB' lastN' sz hsz
          omega
      · simp only [calcLayoutAux, specPackSize, hstep, if_neg hb]
        exact ih cur' lastB' lastN'

/-! ### Building and reading the heap map -/

/-- A dynamically-typed field value as the heap builder sees it. -/
inductive PyVal
  | vint (i : Int)
  | vstr (s : List Nat)
  | vbool (b : Bool)
deriving DecidableEq

/-- A simulated source record: record number plus positional field values
(field index 0 denotes the record number). -/
structure DBFRecordM where
  rec_no : Int
  fields : List PyVal
deriving DecidableEq

def DBFRecordM.get_field (r : DBFRecordM) (idx : Nat) : Option PyVal :=
  if idx = 0 then some (.vint r.rec_no) else r.fields.get? (idx - 1)

def isSpaceByte (c : Nat) : Bool := c = 32 || c = 9 || c = 10 || c = 13

def isDigitByte (c : Nat) : Bool := 48 ≤ c && c ≤ 57

def stripBytes (s : List Nat) : List Nat :=
  ((s.dropWhile isSpaceByte).reverse.dropWhile isSpaceByte).reverse

def digitsToNat (s : List Nat) : Nat :=
  s.foldl (fun acc c => acc * 10 + (c - 48)) 0

/-- Python `int(str)`: optional sign, at least one digit, whitespace
stripped; `none` models the `ValueError` path. -/
def parseIntBytes (s : List Nat) : Option Int :=
  match stripBytes s with
  | [] => Option.none
  | c :: rest =>
    if c = 43 then
      if rest ≠ [] ∧ rest.all isDigitByte then some (digitsToNat rest) else Option.none
    else if c = 45 then
      if rest ≠ [] ∧ rest.all isDigitByte then some (-(digitsToNat rest : Int))
      else Option.none
    else if (c :: rest).all isDigitByte then some (digitsToNat (c :: rest))
    else Option.none

/-- Fliegel–Van Flandern Gregorian date → Julian Day Number (all divisions on
non-negative operands, matching Python's `//`). -/
def date_to_jdn (year month day : Nat) : Int :=
  let a := (14 - month) / 12
  let y := year + 4800 - a
  let m := month + 12 * a - 3
  ((day + (153 * m + 2) / 5 + 365 * y + y / 4 + y / 400 : Nat) : Int)
    - (y / 100 : Nat) - 32045

/-- `dbf_date_str_to_jdn`: `"YYYYMMDD"` to JDN, 0 on any invalid input. -/
def dbf_date_str_to_jdn (s : List Nat) : Int :=
  if s.length ≠ 8 then 0
  else
    match parseIntBytes (s.take 4), parseIntBytes ((s.drop 4).take 2),
        parseIntBytes ((s.drop 6).take 2) with
    | some year, some month, some day =>
      if year < 1 ∨ month < 1 ∨ 12 < month ∨ day < 1 ∨ 31 < day then 0
      else date_to_jdn year.toNat month.toNat day.toNat
    | _, _, _ => 0

structure HeapMap where
  record_count : Nat
  record_size : Nat
  field_count : Nat
  field_specs : List HeapFieldSpec
  records : List (List Nat)
deriving DecidableEq

/-- Pack one field of one record into the record buffer, per the packed
type's rule.  (`struct.pack` range errors for out-of-`i32` values are
represented by two's-complement wrapping; no claim depends on them.) -/
def packOne (r : DBFRecordM) (spec : HeapFieldSpec) (buf : List Nat) : List Nat :=
  let v0 : PyVal :=
    if spec.dbf_field_idx = 0 then .vint r.rec_no
    else match r.get_field spec.dbf_field_idx with
      | Option.none => .vint 0
      | some v => v
  let value : PyVal :=
    if spec.convert_to_jdn then
      match v0 with
      | .vstr s => .vint (dbf_date_str_to_jdn s)
      | v => v
    else v0
  match spec.heap_field_type with
  | .word =>
    let n : Int :=
      match value with
      | .vint i => i
      | .vbool b => if b then 1 else 0
      | .vstr s => (parseIntBytes s).getD 0
    writeBytesAt buf spec.heap_offset (pack16LE (n.emod 65536).toNat)
  | .longint =>
    let n : Int :=
      match value with
      | .vint i => i
      | .vbool b => if b then 1 else 0
      | .vstr s => (parseIntBytes s).getD 0
    writeBytesAt buf spec.heap_offset (pack32LE (n.emod 4294967296).toNat)
  | .bitflags =>
    let bit : Nat :=
      match value with
      | .vbool b => if b then 1 else 0
      | .vstr s => if s = [84] ∨ s = [116] ∨ s = [89] ∨ s = [121] then 1 else 0
      | .vint i => if i ≠ 0 then 1 else 0
    if bit = 1 then
      buf.set spec.heap_offset ((byteAt buf spec.heap_offset) ||| spec.bit_mask)
    else buf
  | .nibble =>
    let n : Int :=
      match value with
      | .vint i => i
      | .vbool b => if b then 1 else 0
      | .vstr _ => 0
    let nv : Nat := (max 0 (min 15 n)).toNat
    if spec.nibble_shift = 0 then
      buf.set spec.heap_offset ((byteAt buf spec.heap_offset &&& 0xF0) ||| (nv &&& 0x0F))
    else
      buf.set spec.heap_offset
        ((byteAt buf spec.heap_offset &&& 0x0F) ||| ((nv &&& 0x0F) <<< 4))
  | .byte =>
    let n : Int :=
      match value with
      | .vint i => i
      | .vbool b => if b then 1 else 0
      | .vstr _ => 0
    buf.set spec.heap_offset (max 0 (min 255 n)).toNat
  | .none => buf

/-- `build_heap_map`: compute the layout; on failure return the empty heap
map (no records loaded); on success pack every record. -/
def build_heap_map (records : List DBFRecordM) (field_specs : List HeapFieldSpec)
    (target : Nat) : HeapMap :=
  let layout := calculate_heap_layout field_specs target
  if layout.1 then
    let recs := records.map
      (fun r => layout.2.foldl (fun buf spec => packOne r spec buf)
        (List.replicate target 0))
    { record_count := recs.length, record_size := target,
      field_count := field_specs.length, field_specs := layout.2, records := recs }
  else
    { record_count := 0, record_size := target, field_count := field_specs.length,
      field_specs := layout.2, records := [] }

/-- C7: the layout algorithm accepts a spec list iff the greedy pack (with
the alignment and byte-sharing rules, final cursor rounded up to a multiple
of 8) fits within the record-size budget; and on rejection `build_heap_map`
produces no partial heap map (zero records). -/
theorem heap_layout_accept_iff_fits (specs : List HeapFieldSpec) (target : Nat)
    (records : List DBFRecordM) :
    ((calculate_heap_layout specs target).1 = true ↔
      ∃ sz, specPackSize specs 0 Option.none Option.none = some sz ∧ sz ≤ target) ∧
    ((calculate_heap_layout specs target).1 = false →
      (build_heap_map records specs target).records = [] ∧
      (build_heap_map records specs target).record_count = 0) := by
  constructor
  · exact calcLayoutAux_iff target specs 0 Option.none Option.none
  · intro hfail
    unfold build_heap_map
    simp only [hfail]
    exact ⟨rfl, rfl⟩

/-- Ten WORD specs: 20 bytes, rejected by a 16-byte budget. -/
def tenWordSpecs : List HeapFieldSpec :=
  (List.range 10).map (fun i => { dbf_field_idx := i, heap_field_type := .word })

/-- C7 witness: ten WORD fields cannot fit a 16-byte record; the rejection is
total. -/
theorem heap_layout_accept_iff_fits_witness :
    (calculate_heap_layout tenWordSpecs 16).1 = false ∧
    (build_heap_map [] tenWordSpecs 16).records = [] :=
  ⟨by decide, ((heap_layout_accept_iff_fits tenWordSpecs 16 []).2 (by decide)).1⟩

/-- Python list indexing: negative indices count from the end; `none` models
an `IndexError`. -/
def pyIndex (len : Nat) (i : Int) : Option Nat :=
  if 0 ≤ i then (if i < (len : Int) then some i.toNat else Option.none)
  else (if 0 ≤ i + len then some (i + len).toNat else Option.none)

def pyListGet {α : Type} (l : List α) (i : Int) : Option α :=
  (pyIndex l.length i).bind fun n => l.get? n

/-- `heap_get_word`.  `none` models an uncaught Python exception (negative
index past the front, or a read beyond the buffer). -/
def heap_get_word (hm : HeapMap) (record_idx field_idx : Int) : Option Nat :=
  if (hm.record_count : Int) ≤ record_idx ∨ field_idx < 1 ∨
      (hm.field_count : Int) < field_idx then some 0
  else
    match pyListGet hm.field_specs (field_idx - 1) with
    | Option.none => Option.none
    | some spec =>
      if spec.heap_field_type ≠ .word then some 0
      else
        match pyListGet hm.records record_idx with
        | Option.none => Option.none
        | some rec =>
          if spec.heap_offset + 2 ≤ rec.length then some (readU16LE rec spec.heap_offset)
          else Option.none

/-- `heap_get_longint` (signed 32-bit read). -/
def heap_get_longint (hm : HeapMap) (record_idx field_idx : Int) : Option Int :=
  if (hm.record_count : Int) ≤ record_idx ∨ field_idx < 1 ∨
      (hm.field_count : Int) < field_idx then some 0
  else
    match pyListGet hm.field_specs (field_idx - 1) with
    | Option.none => Option.none
    | some spec =>
      if spec.heap_field_type ≠ .longint then some 0
      else
        match pyListGet hm.records record_idx with
        | Option.none => Option.none
        | some rec =>
          if spec.heap_offset + 4 ≤ rec.length then
            let u := readU32LE rec spec.heap_offset
            some (if u < 2147483648 then (u : Int) else (u : Int) - 4294967296)
          else Option.none

/-- `heap_get_bitflag`. -/
def heap_get_bitflag (hm : HeapMap) (record_idx field_idx : Int) : Option Bool :=
  if (hm.record_count : Int) ≤ record_idx ∨ field_idx < 1 ∨
      (hm.field_count : Int) < field_idx then some false
  else
    match pyListGet hm.field_specs (field_idx - 1) with
    | Option.none => Option.none
    | some spec =>
      if spec.heap_field_type ≠ .bitflags then some false
      else
        match pyListGet hm.records record_idx with
        | Option.none => Option.none
        | some rec =>
          if spec.heap_offset < rec.length then
            some ((byteAt rec spec.heap_offset &&& spec.bit_mask) ≠ 0)
          else Option.none

/-- `heap_get_nibble`. -/
def heap_get_nibble (hm : HeapMap) (record_idx field_idx : Int) : Option Nat :=
  if (hm.record_count : Int) ≤ record_idx ∨ field_idx < 1 ∨
      (hm.field_count : Int) < field_idx then some 0
  else
    match pyListGet hm.field_specs (field_idx - 1) with
    | Option.none => Option.none
    | some spec =>
      if spec.heap_field_type ≠ .nibble then some 0
      else
        match pyListGet hm.records record_idx with
        | Option.none => Option.none
        | some rec =>
          if spec.heap_offset < rec.length then
            some (if spec.nibble_shift = 0 then byteAt rec spec.heap_offset &&& 0x0F
              else (byteAt rec spec.heap_offset >>> 4) &&& 0x0F)
          else Option.none

/-- `heap_get_byte`. -/
def heap_get_byte (hm : HeapMap) (record_idx field_idx : Int) : Option Nat :=
  if (hm.record_count : Int) ≤ record_idx ∨ field_idx < 1 ∨
      (hm.field_count : Int) < field_idx then some 0
  else
    match pyListGet hm.field_specs (field_idx - 1) with
    | Option.none => Option.none
    | some spec =>
      if spec.heap_field_type ≠ .byte then some 0
      else
        match pyListGet hm.records record_idx with
        | Option.none => Option.none
        | some rec =>
          if spec.heap_offset < rec.length then some (byteAt rec spec.heap_offset)
          else Option.none

/-- The byte span an accessor of this packed type reads. -/
def specWidth : HeapFieldType → Nat
  | .word => 2
  | .longint => 4
  | _ => 1

/-- Well-formedness of a heap map as `build_heap_map` produces it: the counts
match the lists, every record buffer has `record_size` bytes, and every
spec's read span fits in a record. -/
def HeapMap.WF (hm : HeapMap) : Prop :=
  hm.record_count = hm.records.length ∧ hm.field_count = hm.field_specs.length ∧
    (∀ r ∈ hm.records, r.length = hm.record_size) ∧
    (∀ s ∈ hm.field_specs, s.heap_offset + specWidth s.heap_field_type ≤ hm.record_size)

/-- A one-record heap map with a single WORD field holding value 7. -/
def exHeap : HeapMap :=
  { record_count := 1, record_size := 16, field_count := 1,
    field_specs := [{ dbf_field_idx := 0, heap_field_type := .word }],
    records := [7 :: List.replicate 15 0] }

/-- An empty heap map (no records). -/
def exHeapEmpty : HeapMap :=
  { record_count := 0, record_size := 16, field_count := 1,
    field_specs := [{ dbf_field_idx := 0, heap_field_type := .word }],
    records := [] }

/-- C8 counterexample: for a negative record index the guard
`record_idx >= record_count` does not fire, so Python's negative indexing
reads the *last* record (returning 7, not 0), and on an empty heap map the
same call raises an `IndexError` (modelled as `none`) instead of returning
zero. -/
theorem heap_accessor_negative_index_counterexample :
    heap_get_word exHeap (-1) 1 = some 7 ∧ (7 : Nat) ≠ 0 ∧
    heap_get_word exHeapEmpty (-1) 1 = Option.none := by
  refine ⟨by decide, by decide, by decide⟩

theorem pyListGet_nonneg {α : Type} (l : List α) (i : Int) (h0 : 0 ≤ i)
    (hlt : i < (l.length : Int)) : l.get? i.toNat ≠ Option.none ∧
    pyListGet l i = l.get? i.toNat := by
  constructor
  · rw [ne_eq, List.get?_eq_none]
    push_neg
    omega
  · unfold pyListGet pyIndex
    rw [if_pos h0, if_pos hlt]
    rfl

/-- C8 (amended): restricted to non-negative record indices and well-formed
heap maps, every typed accessor is total (`isSome`), and it returns zero /
false whenever the indices are out of range or the spec's packed type does
not match the accessor. -/
theorem heap_accessors_total_nonneg (hm : HeapMap) (hwf : hm.WF)
    (r f : Int) (hr : 0 ≤ r) :
    ((heap_get_word hm r f).isSome ∧ (heap_get_longint hm r f).isSome ∧
      (heap_get_bitflag hm r f).isSome ∧ (heap_get_nibble hm r f).isSome ∧
      (heap_get_byte hm r f).isSome) ∧
    (((hm.record_count : Int) ≤ r ∨ f < 1 ∨ (hm.field_count : Int) < f) →
      heap_get_word hm r f = some 0 ∧ heap_get_longint hm r f = some 0 ∧
      heap_get_bitflag hm r f = some false ∧ heap_get_nibble hm r f = some 0 ∧
      heap_get_byte hm r f = some 0) ∧
    (∀ spec, pyListGet hm.field_specs (f - 1) = some spec →
      ¬ ((hm.record_count : Int) ≤ r ∨ f < 1 ∨ (hm.field_count : Int) < f) →
      (spec.heap_field_type ≠ .word → heap_get_word hm r f = some 0) ∧
      (spec.heap_field_type ≠ .longint → heap_get_longint hm r f = some 0) ∧
      (spec.heap_field_type ≠ .bitflags → heap_get_bitflag hm r f = some false) ∧
      (spec.heap_field_type ≠ .nibble → heap_get_nibble hm r f = some 0) ∧
      (spec.heap_field_type ≠ .byte → heap_get_byte hm r f = some 0)) := by
  obtain ⟨hc, hf, hrecs, hspecs⟩ := hwf
  by_cases hg : (hm.record_count : Int) ≤ r ∨ f < 1 ∨ (hm.field_count : Int) < f
  · refine ⟨?_, fun _ => ?_, ?_⟩
    · unfold heap_get_word heap_get_longint heap_get_bitflag heap_get_nibble
        heap_get_byte
      rw [if_pos hg, if_pos hg, if_pos hg, if_pos hg, if_pos hg]
      exact ⟨rfl, rfl, rfl, rfl, rfl⟩
    · unfold heap_get_word heap_get_longint heap_get_bitflag heap_get_nibble
        heap_get_byte
      rw [if_pos hg, if_pos hg, if_pos hg, if_pos hg, if_pos hg]
      exact ⟨rfl, rfl, rfl, rfl, rfl⟩
    · intro spec _ habs
      exact absurd hg habs
  · push_neg at hg
    obtain ⟨hrlt, hf1, hfle⟩ := hg
    have hng : ¬ ((hm.record_count : Int) ≤ r ∨ f < 1 ∨ (hm.field_count : Int) < f) := by
      push_neg
      exact ⟨hrlt, hf1, hfle⟩
    have hspec := pyListGet_nonneg hm.field_specs (f - 1) (by omega)
      (by rw [← hf]; omega)
    obtain ⟨spec, hspecEq⟩ : ∃ spec, pyListGet hm.field_specs (f - 1) = some spec := by
      rcases hget : hm.field_specs.get? (f - 1).toNat with _ | spec
      · exact absurd hget hspec.1
      · exact ⟨spec, by rw [hspec.2, hget]⟩
    have hrece := pyListGet_nonneg hm.records r (by omega)
      (by rw [← hc]; omega)
    obtain ⟨rec, hrecEq⟩ : ∃ rec, pyListGet hm.records r = some rec := by
      rcases hget : hm.records.get? r.toNat with _ | rec
      · exact absurd hget hrece.1
      · exact ⟨rec, by rw [hrece.2, hget]⟩
    have hrecmem : rec ∈ hm.records := by
      rw [hrece.2] at hrecEq
      exact List.get?_mem hrecEq
    have hspecmem : spec ∈ hm.field_specs := by
      rw [hspec.2] at hspecEq
      exact List.get?_mem hspecEq
    have hreclen : rec.length = hm.record_size := hrecs rec hrecmem
    have hbound := hspecs spec hspecmem
    refine ⟨?_, fun habs => absurd habs hng, ?_⟩
    · refine ⟨?_, ?_, ?_, ?_, ?_⟩
      · unfold heap_get_word
        rw [if_neg hng, hspecEq]
        dsimp only
        by_cases hty : spec.heap_field_type = HeapFieldType.word
        · rw [if_neg (by simp [hty]), hrecEq]
          dsimp only
          have hb : spec.heap_offset + 2 ≤ rec.length := by
            rw [hreclen]
            simpa [specWidth, hty] using hbound
          rw [if_pos hb]
          rfl
        · rw [if_pos hty]
          rfl
      · unfold heap_get_longint
        rw [if_neg hng, hspecEq]
        dsimp only
        by_cases hty : spec.heap_field_type = HeapFieldType.longint
        · rw [if_neg (by simp [hty]), hrecEq]
          dsimp only
          have hb : spec.heap_offset + 4 ≤ rec.length := by
            rw [hreclen]
            simpa [specWidth, hty] using hbound
          rw [if_pos hb]
          rfl
        · rw [if_pos hty]
          rfl
      · unfold heap_get_bitflag
        rw [if_neg hng, hspecEq]
        dsimp only
        by_cases hty : spec.heap_field_type = HeapFieldType.bitflags
        · rw [if_neg (by simp [hty]), hrecEq]
          dsimp only
          have hb : spec.heap_offset < rec.length := by
            rw [hreclen]
            have : spec.heap_offset + 1 ≤ hm.record_size := by
              simpa [specWidth, hty] using hbound
            omega
          rw [if_pos hb]
          rfl
        · rw [if_pos hty]
          rfl
      · unfold heap_get_nibble
        rw [if_neg hng, hspecEq]
        dsimp only
        by_cases hty : spec.heap_field_type = HeapFieldType.nibble
        · rw [if_neg (by simp [hty]), hrecEq]
          dsimp only
          have hb : spec.heap_offset < rec.length := by
            rw [hreclen]
            have : spec.heap_offset + 1 ≤ hm.record_size := by
              simpa [specWidth, hty] using hbound
            omega
          rw [if_pos hb]
          rfl
        · rw [if_pos hty]
          rfl
      · unfold heap_get_byte
        rw [if_neg hng, hspecEq]
        dsimp only
        by_cases hty : spec.heap_field_type = HeapFieldType.byte
        · rw [if_neg (by simp [hty]), hrecEq]
          dsimp only
          have hb : spec.heap_offset < rec.length := by
            rw [hreclen]
            have : spec.heap_offset + 1 ≤ hm.record_size := by
              simpa [specWidth, hty] using hbound
            omega
          rw [if_pos hb]
          rfl
        · rw [if_pos hty]
          rfl
    · intro spec' hspecEq' _
      rw [hspecEq'] at hspecEq
      cases hspecEq
      refine ⟨fun hty => ?_, fun hty => ?_, fun hty => ?_, fun hty => ?_,
        fun hty => ?_⟩
      · unfold heap_get_word
        rw [if_neg hng, hspecEq']
        dsimp only
        rw [if_pos hty]
      · unfold heap_get_longint
        rw [if_neg hng, hspecEq']
        dsimp only
        rw [if_pos hty]
      · unfold heap_get_bitflag
        rw [if_neg hng, hspecEq']
        dsimp only
        rw [if_pos hty]
      · unfold heap_get_nibble
        rw [if_neg hng, hspecEq']
        dsimp only
        rw [if_pos hty]
      · unfold heap_get_byte
        rw [if_neg hng, hspecEq']
        dsimp only
        rw [if_pos hty]

instance (hm : HeapMap) : Decidable hm.WF := by
  unfold HeapMap.WF
  infer_instance

/-- C8 witness: the amended theorem applied to the concrete one-record heap
map at valid indices. -/
theorem heap_accessors_total_nonneg_witness :
    (exHeap.WF ∧ (0 : Int) ≤ 0) ∧ (heap_get_word exHeap 0 1).isSome :=
  ⟨⟨by decide, by decide⟩,
    (heap_accessors_total_nonneg exHeap (by decide) 0 1 (by decide)).1.1⟩

/-! ## NDX index codec and search engine

The index file is carried as `Option (List Nat)`: `none` models a missing
file (`FileNotFoundError`). -/

structure NDXHeader where
  root_block : Nat
  eof_block : Nat
  key_len : Nat
  keys_max : Nat
  group_len : Nat
  expr : List Nat
deriving DecidableEq

structure NDXNode where
  num_keys : Nat
  keys : List (List Nat)
  childs : List Nat
  recnos : List Nat
  last_child : Nat
deriving DecidableEq

/-- `_valid_layout`. -/
def valid_layout (kl km gl : Nat) : Bool :=
  if kl = 0 ∨ 255 < kl then false
  else if km = 0 ∨ 255 < km then false
  else if gl < kl + 8 then false
  else if 512 < 4 + km * gl + 4 then false
  else true

/-- `ndx_read_header`: try the v1 (16-bit) and v2 (32-bit) dialects, prefer
v1 whenever it validates, reject when neither does. -/
def ndx_read_header (file : Option (List Nat)) : Option NDXHeader :=
  match file with
  | Option.none => Option.none
  | some fb =>
    if fb.length < 512 then Option.none
    else
      let buf := fb.take 512
      let v1ok := valid_layout (readU16LE buf 6) (readU16LE buf 8) (readU16LE buf 10)
      let v2ok := valid_layout (readU16LE buf 12) (readU16LE buf 14) (readU16LE buf 18)
      if v2ok ∧ ¬ v1ok then
        some { root_block := readU32LE buf 0, eof_block := readU32LE buf 4,
               key_len := readU16LE buf 12, keys_max := readU16LE buf 14,
               group_len := readU16LE buf 18,
               expr := ((buf.drop 24).takeWhile (fun c => c ≠ 0)).take 80 }
      else if v1ok then
        some { root_block := readU16LE buf 0, eof_block := readU16LE buf 4,
               key_len := readU16LE buf 6, keys_max := readU16LE buf 8,
               group_len := readU16LE buf 10,
               expr := ((buf.drop 16).takeWhile (fun c => c ≠ 0)).take 80 }
      else Option.none

/-- `ndx_read_node`: parse the 512-byte block at `block`; `none` if the block
is not fully inside the file.  The claimed key count is clamped to
`keys_max`. -/
def ndx_read_node (file : Option (List Nat)) (block : Nat) (hd : NDXHeader) :
    Option NDXNode :=
  match file with
  | Option.none => Option.none
  | some fb =>
    if fb.length < block * 512 + 512 then Option.none
    else
      let buf := (fb.drop (block * 512)).take 512
      let nk0 := readU16LE buf 0
      let nk := if hd.keys_max < nk0 then hd.keys_max else nk0
      some { num_keys := nk,
             keys := (List.range nk).map
               (fun i => (buf.drop (4 + i * hd.group_len + 8)).take hd.key_len),
             childs := (List.range nk).map (fun i => readU32LE buf (4 + i * hd.group_len)),
             recnos := (List.range nk).map
               (fun i => readU32LE buf (4 + i * hd.group_len + 4)),
             last_child := readU32LE buf (4 + nk * hd.group_len) }

/-- `ndx_is_leaf_node`: all child pointers zero. -/
def ndx_is_leaf_node (n : NDXNode) : Bool := n.childs.all (fun c => c = 0)

/-- `_normalize_key`: truncate to `key_len`, NULs → spaces, right-pad with
spaces. -/
def normalizeKey (k : List Nat) (kl : Nat) : List Nat :=
  let k1 := if kl < k.length then k.take kl else k
  let k2 := k1.map (fun c => if c = 0 then 32 else c)
  k2 ++ List.replicate (kl - k2.length) 32

/-- Byte-wise comparison of two equal-length keys (`_compare_keys` body). -/
def compareListBytes : List Nat → List Nat → Int
  | [], _ => 0
  | _ :: _, [] => 0
  | a :: as, b :: bs =>
    if a < b then -1 else if b < a then 1 else compareListBytes as bs

/-- `_compare_keys`. -/
def compareKeys (a b : List Nat) (kl : Nat) : Int :=
  compareListBytes (normalizeKey a kl) (normalizeKey b kl)

/-- `_normalize_prefix` (NULs → spaces, truncate, no padding). -/
def normalizePfx (p : List Nat) (kl : Nat) : List Nat :=
  let p1 := p.map (fun c => if c = 0 then 32 else c)
  if kl < p1.length then p1.take kl else p1

/-- `_starts_with_key`. -/
def startsWithKey (key_str pfx : List Nat) : Bool :=
  if pfx.length = 0 then false
  else if key_str.length < pfx.length then false
  else (List.range pfx.length).all (fun i => byteAt key_str i = byteAt pfx i)

/-- `_key_str_to_key8`: the first 8 bytes of the stored key, zero-filled. -/
def keyStrToKey8 (k : List Nat) : List Nat := (List.range 8).map (fun i => byteAt k i)

/-- `_compare_key8` inner loop, from byte `i-1` down to byte 0. -/
def compareKey8Aux (a b : List Nat) : Nat → Int
  | 0 => 0
  | i + 1 =>
    if byteAt a i < byteAt b i then -1
    else if byteAt b i < byteAt a i then 1
    else compareKey8Aux a b i

/-- `_compare_key8`: compare 8-byte keys from the high byte down. -/
def compareKey8 (a b : List Nat) : Int := compareKey8Aux a b 8

/-- Fueled binary logarithm (`⌊log₂ n⌋`), kernel-evaluable. -/
def log2Fuel : Nat → Nat → Nat
  | 0, _ => 0
  | fuel + 1, n => if n < 2 then 0 else log2Fuel fuel (n / 2) + 1

def natLog2 (n : Nat) : Nat := log2Fuel n n

/-- IEEE-754 binary64 bit pattern of a natural number (round half to even) —
the value of Python's `float(value)` for `value ≥ 0`. -/
def natToF64bits (v : Nat) : Nat :=
  if v = 0 then 0
  else
    let b := natLog2 v
    if b ≤ 52 then (1023 + b) * 2 ^ 52 + (v * 2 ^ (52 - b) - 2 ^ 52)
    else
      let sh := b - 52
      let q := v / 2 ^ sh
      let r := v % 2 ^ sh
      let half := 2 ^ (sh - 1)
      let q' := if half < r ∨ (r = half ∧ q % 2 = 1) then q + 1 else q
      let e := if q' = 2 ^ 53 then b + 1 else b
      let m := if q' = 2 ^ 53 then 2 ^ 52 else q'
      if 2047 ≤ 1023 + e then 2047 * 2 ^ 52
      else (1023 + e) * 2 ^ 52 + (m - 2 ^ 52)

def pack64LE (v : Nat) : List Nat := (List.range 8).map (fun i => v / 2 ^ (8 * i) % 256)

/-- `_make_key8_from_int` for non-negative values: `struct.pack('<d', float v)`. -/
def makeKey8FromNat (v : Nat) : List Nat := pack64LE (natToF64bits v)

/-- Iterator cursor: the stack of block numbers, the per-level indices, and
the valid depth (the source keeps possibly-longer lists and slices with
`[:depth]`). -/
structure IterSt where
  stack : List Nat
  idxs : List Nat
  depth : Nat
deriving DecidableEq

/-- `_descend_leftmost`.  The loop is bounded by `depth < 20`; fuel 21 at
every call site makes the fuel never bind before the depth cap. -/
def descend_leftmost (file : Option (List Nat)) (hd : NDXHeader) :
    Nat → Nat → IterSt → IterSt
  | 0, _, st => st
  | fuel + 1, block, st =>
    if 0 < block ∧ st.depth < 20 then
      match ndx_read_node file block hd with
      | Option.none => st
      | some node =>
        let st' : IterSt := ⟨st.stack ++ [block], st.idxs ++ [0], st.depth + 1⟩
        if ndx_is_leaf_node node then st'
        else
          descend_leftmost file hd fuel
            (if 0 < node.num_keys then node.childs.getD 0 0 else node.last_child) st'
    else st

/-- `_advance_to_successor`: unwind to the nearest ancestor with a next
child, bump its index, and descend leftmost from there.  The loop runs at
most `depth ≤ 20` times; fuel 21 never binds. -/
def advance_to_successor (file : Option (List Nat)) (hd : NDXHeader) :
    Nat → IterSt → IterSt
  | 0, st => st
  | fuel + 1, st =>
    if st.depth = 0 then st
    else
      let d := st.depth
      let child_pos := st.idxs.getD (d - 1) 0
      match ndx_read_node file (st.stack.getD (d - 1) 0) hd with
      | Option.none => st
      | some node =>
        if child_pos < node.num_keys then
          let next_pos := child_pos + 1
          let next_block :=
            if next_pos < node.num_keys then node.childs.getD next_pos 0
            else node.last_child
          descend_leftmost file hd 21 next_block
            ⟨st.stack.take d, (st.idxs.set (d - 1) next_pos).take d, d⟩
        else advance_to_successor file hd fuel ⟨st.stack, st.idxs, d - 1⟩

/-- `_next_entry`: yield the entry under the cursor at a leaf, else unwind
and advance.  The fuel bounds the outer `while`, whose iteration count in
the source is bounded by the (finite) tree indices. -/
def next_entry (file : Option (List Nat)) (hd : NDXHeader) :
    Nat → IterSt → Option (List Nat × Nat × IterSt)
  | 0, _ => Option.none
  | fuel + 1, st =>
    if st.depth = 0 then Option.none
    else
      let d := st.depth
      let idx := st.idxs.getD (d - 1) 0
      match ndx_read_node file (st.stack.getD (d - 1) 0) hd with
      | Option.none => Option.none
      | some node =>
        if ndx_is_leaf_node node then
          if idx < node.num_keys then
            some (node.keys.getD idx [], node.recnos.getD idx 0,
              ⟨st.stack, st.idxs.set (d - 1) (idx + 1), d⟩)
          else
            next_entry file hd fuel
              (advance_to_successor file hd 21 ⟨st.stack, st.idxs, d - 1⟩)
        else
          next_entry file hd fuel
            (advance_to_successor file hd 21 ⟨st.stack, st.idxs, d - 1⟩)

/-- `_descend_to_first_ge` (character keys). -/
def descend_first_ge_char (file : Option (List Nat)) (hd : NDXHeader)
    (key_norm : List Nat) : Nat → Nat → IterSt → IterSt
  | 0, _, st => st
  | fuel + 1, block, st =>
    if 0 < block ∧ st.depth < 20 then
      match ndx_read_node file block hd with
      | Option.none => st
      | some node =>
        if ndx_is_leaf_node node then
          let idx := ((List.range node.num_keys).find? (fun i =>
            decide (0 ≤ compareKeys (node.keys.getD i []) key_norm hd.key_len))).getD
            node.num_keys
          ⟨st.stack ++ [block], st.idxs ++ [idx], st.depth + 1⟩
        else
          match (List.range node.num_keys).find? (fun i =>
              decide (compareKeys key_norm (node.keys.getD i []) hd.key_len ≤ 0)) with
          | some i =>
            descend_first_ge_char file hd key_norm fuel (node.childs.getD i 0)
              ⟨st.stack ++ [block], st.idxs ++ [i], st.depth + 1⟩
          | Option.none =>
            descend_first_ge_char file hd key_norm fuel node.last_child
              ⟨st.stack ++ [block], st.idxs ++ [node.num_keys], st.depth + 1⟩
    else st

/-- `_descend_to_first_ge_number`. -/
def descend_first_ge_number (file : Option (List Nat)) (hd : NDXHeader)
    (target : List Nat) : Nat → Nat → IterSt → IterSt
  | 0, _, st => st
  | fuel + 1, block, st =>
    if 0 < block ∧ st.depth < 20 then
      match ndx_read_node file block hd with
      | Option.none => st
      | some node =>
        if ndx_is_leaf_node node then
          let idx := ((List.range node.num_keys).find? (fun i =>
            decide (0 ≤ compareKey8 (keyStrToKey8 (node.keys.getD i [])) target))).getD
            node.num_keys
          ⟨st.stack ++ [block], st.idxs ++ [idx], st.depth + 1⟩
        else
          match (List.range node.num_keys).find? (fun i =>
              decide (compareKey8 target (keyStrToKey8 (node.keys.getD i [])) ≤ 0)) with
          | some i =>
            descend_first_ge_number file hd target fuel (node.childs.getD i 0)
              ⟨st.stack ++ [block], st.idxs ++ [i], st.depth + 1⟩
          | Option.none =>
            descend_first_ge_number file hd target fuel node.last_child
              ⟨st.stack ++ [block], st.idxs ++ [node.num_keys], st.depth + 1⟩
    else st

/-- Collection loop of `ndx_find_exact` (character keys): emit while the key
compares equal, skipping zero record numbers. -/
def exactCharLoop (file : Option (List Nat)) (hd : NDXHeader) (key_norm : List Nat) :
    Nat → Nat → IterSt → List Nat
  | 0, _, _ => []
  | fuel + 1, remaining, st =>
    if remaining = 0 then []
    else
      match next_entry file hd (fuel + 1) st with
      | Option.none => []
      | some (k, r, st') =>
        if compareKeys k key_norm hd.key_len ≠ 0 then []
        else if r ≠ 0 then r :: exactCharLoop file hd key_norm fuel (remaining - 1) st'
        else exactCharLoop file hd key_norm fuel remaining st'

/-- `ndx_find_exact` (character keys), with fuel for the B-tree walk. -/
def ndx_find_exact (file : Option (List Nat)) (search_key : List Nat)
    (max_count fuel : Nat) : List Nat :=
  match ndx_read_header file with
  | Option.none => []
  | some hd =>
    let key_norm := normalizeKey search_key hd.key_len
    exactCharLoop file hd key_norm fuel max_count
      (descend_first_ge_char file hd key_norm 21 hd.root_block ⟨[], [], 0⟩)

/-- Collection loop of the LIKE-prefix search: emit while the (un-padded)
key still begins with the prefix. -/
def pfxLoop (file : Option (List Nat)) (hd : NDXHeader) (pfx_norm : List Nat) :
    Nat → Nat → IterSt → List Nat
  | 0, _, _ => []
  | fuel + 1, remaining, st =>
    if remaining = 0 then []
    else
      match next_entry file hd (fuel + 1) st with
      | Option.none => []
      | some (k, r, st') =>
        if ¬ startsWithKey (normalizePfx k hd.key_len) pfx_norm then []
        else if r ≠ 0 then r :: pfxLoop file hd pfx_norm fuel (remaining - 1) st'
        else pfxLoop file hd pfx_norm fuel remaining st'

/-- `ndx_find_prefix`, with fuel for the B-tree walk. -/
def ndx_find_pfx (file : Option (List Nat)) (p : List Nat)
    (max_count fuel : Nat) : List Nat :=
  match ndx_read_header file with
  | Option.none => []
  | some hd =>
    let pfx_norm := normalizePfx p hd.key_len
    let key_norm := normalizeKey pfx_norm hd.key_len
    pfxLoop file hd pfx_norm fuel max_count
      (descend_first_ge_char file hd key_norm 21 hd.root_block ⟨[], [], 0⟩)

/-- Collection loop of `ndx_find_number_exact`. -/
def numExactLoop (file : Option (List Nat)) (hd : NDXHeader) (target : List Nat) :
    Nat → Nat → IterSt → List Nat
  | 0, _, _ => []
  | fuel + 1, remaining, st =>
    if remaining = 0 then []
    else
      match next_entry file hd (fuel + 1) st with
      | Option.none => []
      | some (k, r, st') =>
        if compareKey8 (keyStrToKey8 k) target ≠ 0 then []
        else if r ≠ 0 then r :: numExactLoop file hd target fuel (remaining - 1) st'
        else numExactLoop file hd target fuel remaining st'

/-- Collection loop of `ndx_find_number_range`: stop past `maxKey`. -/
def numRangeLoop (file : Option (List Nat)) (hd : NDXHeader) (maxKey : List Nat) :
    Nat → Nat → IterSt → List Nat
  | 0, _, _ => []
  | fuel + 1, remaining, st =>
    if remaining = 0 then []
    else
      match next_entry file hd (fuel + 1) st with
      | Option.none => []
      | some (k, r, st') =>
        if 0 < compareKey8 (keyStrToKey8 k) maxKey then []
        else if r ≠ 0 then r :: numRangeLoop file hd maxKey fuel (remaining - 1) st'
        else numRangeLoop file hd maxKey fuel remaining st'

/-- The descent state both numeric searches start from. -/
def descentNumSt (file : Option (List Nat)) (hd : NDXHeader) (v : Nat) : IterSt :=
  descend_first_ge_number file hd (makeKey8FromNat v) 21 hd.root_block ⟨[], [], 0⟩

/-- `ndx_find_number_exact`, with fuel for the B-tree walk. -/
def ndx_find_number_exact (file : Option (List Nat)) (value : Nat)
    (max_count fuel : Nat) : List Nat :=
  match ndx_read_header file with
  | Option.none => []
  | some hd =>
    if hd.key_len < 8 then []
    else numExactLoop file hd (makeKey8FromNat value) fuel max_count
      (descentNumSt file hd value)

/-- `ndx_find_number_range`, with fuel for the B-tree walk. -/
def ndx_find_number_range (file : Option (List Nat)) (minV maxV : Nat)
    (max_count fuel : Nat) : List Nat :=
  match ndx_read_header file with
  | Option.none => []
  | some hd =>
    if hd.key_len < 8 then []
    else if maxV < minV then []
    else numRangeLoop file hd (makeKey8FromNat maxV) fuel max_count
      (descentNumSt file hd minV)

/-- The stream of (key, recno) pairs produced by iterating `next_entry`,
with the same fuel discipline as the collection loops. -/
def streamEntries (file : Option (List Nat)) (hd : NDXHeader) :
    Nat → IterSt → List (List Nat × Nat)
  | 0, _ => []
  | fuel + 1, st =>
    match next_entry file hd (fuel + 1) st with
    | Option.none => []
    | some (k, r, st') => (k, r) :: streamEntries file hd fuel st'

/-- The B-tree soundness premise for a numeric search at `v`: every entry the
iterator emits after the first-≥ descent has an 8-byte key not below the
encoded target (this is what the §3 node-ordering invariant guarantees). -/
def streamGEB (file : Option (List Nat)) (v : Nat) (fuel : Nat) : Bool :=
  match ndx_read_header file with
  | Option.none => true
  | some hd =>
    (streamEntries file hd fuel (descentNumSt file hd v)).all
      (fun e => compareKey8 (keyStrToKey8 e.1) (makeKey8FromNat v) ≠ -1)

theorem compareKey8Aux_cases (a b : List Nat) :
    ∀ n, compareKey8Aux a b n = -1 ∨ compareKey8Aux a b n = 0 ∨
      compareKey8Aux a b n = 1 := by
  intro n
  induction n with
  | zero => simp [compareKey8Aux]
  | succ n ih =>
    unfold compareKey8Aux
    split_ifs <;> simp [ih]

theorem compareKey8_cases (a b : List Nat) :
    compareKey8 a b = -1 ∨ compareKey8 a b = 0 ∨ compareKey8 a b = 1 :=
  compareKey8Aux_cases a b 8

theorem numLoops_eq (file : Option (List Nat)) (hd : NDXHeader) (target : List Nat) :
    ∀ fuel remaining st,
      (∀ e ∈ streamEntries file hd fuel st,
        compareKey8 (keyStrToKey8 e.1) target ≠ -1) →
      numExactLoop file hd target fuel remaining st
        = numRangeLoop file hd target fuel remaining st := by
  intro fuel
  induction fuel with
  | zero => intro remaining st _; rfl
  | succ fuel ih =>
    intro remaining st h
    by_cases hrem : remaining = 0
    · simp [numExactLoop, numRangeLoop, hrem]
    · cases hne : next_entry file hd (fuel + 1) st with
      | none => simp [numExactLoop, numRangeLoop, hrem, hne]
      | some q =>
        obtain ⟨k, r, st'⟩ := q
        have hstream : streamEntries file hd (fuel + 1) st
            = (k, r) :: streamEntries file hd fuel st' := by
          simp [streamEntries, hne]
        have hhead : compareKey8 (keyStrToKey8 k) target ≠ -1 := by
          have := h (k, r) (by rw [hstream]; exact List.mem_cons_self _ _)
          simpa using this
        have htail : ∀ e ∈ streamEntries file hd fuel st',
            compareKey8 (keyStrToKey8 e.1) target ≠ -1 := by
          intro e he
          exact h e (by rw [hstream]; exact List.mem_cons_of_mem _ he)
        rcases compareKey8_cases (keyStrToKey8 k) target with hc | hc | hc
        · exact absurd hc hhead
        · simp only [numExactLoop, numRangeLoop, if_neg hrem, hne, hc]
          norm_num
          by_cases hr : r = 0
          · simp only [hr, ne_eq, not_true_eq_false, if_neg, ite_false]
            simp
            exact ih remaining st' htail
          · simp only [hr, ne_eq, not_false_eq_true, if_pos, ite_true]
            simp [hr]
            exact ih (remaining - 1) st' htail
        · simp only [numExactLoop, numRangeLoop, if_neg hrem, hne, hc]
          norm_num

theorem numRangeLoop_sound (file : Option (List Nat)) (hd : NDXHeader)
    (minKey maxKey : List Nat) :
    ∀ fuel remaining st,
      (∀ e ∈ streamEntries file hd fuel st,
        compareKey8 (keyStrToKey8 e.1) minKey ≠ -1) →
      ∀ r ∈ numRangeLoop file hd maxKey fuel remaining st,
        ∃ k, (k, r) ∈ streamEntries file hd fuel st ∧
          0 ≤ compareKey8 (keyStrToKey8 k) minKey ∧
          compareKey8 (keyStrToKey8 k) maxKey ≤ 0 := by
  intro fuel
  induction fuel with
  | zero => intro remaining st _ r hr; simp [numRangeLoop] at hr
  | succ fuel ih =>
    intro remaining st h r hr
    by_cases hrem : remaining = 0
    · simp [numRangeLoop, hrem] at hr
    · cases hne : next_entry file hd (fuel + 1) st with
      | none => simp [numRangeLoop, hrem, hne] at hr
      | some q =>
        obtain ⟨k, r0, st'⟩ := q
        have hstream : streamEntries file hd (fuel + 1) st
            = (k, r0) :: streamEntries file hd fuel st' := by
          simp [streamEntries, hne]
        have hhead : compareKey8 (keyStrToKey8 k) minKey ≠ -1 := by
          have := h (k, r0) (by rw [hstream]; exact List.mem_cons_self _ _)
          simpa using this
        have htail : ∀ e ∈ streamEntries file hd fuel st',
            compareKey8 (keyStrToKey8 e.1) minKey ≠ -1 := by
          intro e he
          exact h e (by rw [hstream]; exact List.mem_cons_of_mem _ he)
        simp only [numRangeLoop, if_neg hrem, hne] at hr
        by_cases hmax : 0 < compareKey8 (keyStrToKey8 k) maxKey
        · simp [hmax] at hr
        · rw [if_neg hmax] at hr
          have hge : 0 ≤ compareKey8 (keyStrToKey8 k) minKey := by
            rcases compareKey8_cases (keyStrToKey8 k) minKey with hc | hc | hc
            · exact absurd hc hhead
            · omega
            · omega
          have hle : compareKey8 (keyStrToKey8 k) maxKey ≤ 0 := by omega
          by_cases hr0 : r0 = 0
          · rw [if_neg (by simp [hr0])] at hr
            obtain ⟨k', hk'⟩ := ih remaining st' htail r hr
            exact ⟨k', by rw [hstream]; exact List.mem_cons_of_mem _ hk'.1,
              hk'.2.1, hk'.2.2⟩
          · rw [if_pos (by simp [hr0])] at hr
            rcases List.mem_cons.mp hr with hr | hr
            · subst hr
              exact ⟨k, by rw [hstream]; exact List.mem_cons_self _ _, hge, hle⟩
            · obtain ⟨k', hk'⟩ := ih (remaining - 1) st' htail r hr
              exact ⟨k', by rw [hstream]; exact List.mem_cons_of_mem _ hk'.1,
                hk'.2.1, hk'.2.2⟩

/-- C6: over a numeric (or date, which delegates to the numeric path) index
whose iterated entries after the first-≥ descent never compare below the
encoded search key (the B-tree ordering invariant), `find_exact(v)` returns
exactly `find_range(v, v)`; and for `a ≤ b`, every record number returned by
`find_range(a, b)` is emitted with a stored 8-byte key lying within
`[a, b]` in the high-to-low byte comparator. -/
theorem numeric_exact_eq_range (file : Option (List Nat)) (v a b maxCount fuel : Nat)
    (h1 : streamGEB file v fuel = true) (hab : a ≤ b)
    (h3 : streamGEB file a fuel = true) :
    ndx_find_number_exact file v maxCount fuel
      = ndx_find_number_range file v v maxCount fuel ∧
    (∀ hd, ndx_read_header file = some hd →
      ∀ r ∈ ndx_find_number_range file a b maxCount fuel,
        ∃ k, (k, r) ∈ streamEntries file hd fuel (descentNumSt file hd a) ∧
          0 ≤ compareKey8 (keyStrToKey8 k) (makeKey8FromNat a) ∧
          compareKey8 (keyStrToKey8 k) (makeKey8FromNat b) ≤ 0) := by
  cases hh : ndx_read_header file with
  | none =>
    constructor
    · unfold ndx_find_number_exact ndx_find_number_range
      rw [hh]
    · intro hd hcontra
      exact Option.noConfusion hcontra
  | some hd =>
    unfold streamGEB at h1 h3
    rw [hh] at h1 h3
    dsimp only at h1 h3
    have h1' := List.all_eq_true.mp h1
    have h3' := List.all_eq_true.mp h3
    constructor
    · unfold ndx_find_number_exact ndx_find_number_range
      rw [hh]
      dsimp only
      by_cases hkl : hd.key_len < 8
      · rw [if_pos hkl, if_pos hkl]
      · rw [if_neg hkl, if_neg hkl, if_neg (by omega)]
        exact numLoops_eq file hd (makeKey8FromNat v) fuel maxCount
          (descentNumSt file hd v)
          (fun e he => by simpa using h1' e he)
    · intro hd' hhd'
      injection hhd' with hEq
      subst hEq
      intro r hr
      unfold ndx_find_number_range at hr
      rw [hh] at hr
      dsimp only at hr
      by_cases hkl : hd.key_len < 8
      · rw [if_pos hkl] at hr
        simp at hr
      · rw [if_neg hkl, if_neg (by omega)] at hr
        exact numRangeLoop_sound file hd (makeKey8FromNat a) (makeKey8FromNat b)
          fuel maxCount (descentNumSt file hd a)
          (fun e he => by simpa using h3' e he) r hr

/-- A one-leaf numeric NDX file (v2 header: root 1, eof 2, key_len 8,
keys_max 31, group_len 16) with entries (recno 2, key 5), (recno 3, key 5),
(recno 9, key 6). -/
def c6LeafEntry (recno v : Nat) : List Nat :=
  pack32LE 0 ++ pack32LE recno ++ makeKey8FromNat v

def c6File : List Nat :=
  (pack32LE 1 ++ pack32LE 2 ++ [0, 0, 0, 0] ++ pack16LE 8 ++ pack16LE 31 ++
      [0, 0] ++ pack16LE 16 ++ List.replicate 492 0) ++
    (pack16LE 3 ++ [0, 0] ++ c6LeafEntry 2 5 ++ c6LeafEntry 3 5 ++
      c6LeafEntry 9 6 ++ pack32LE 0 ++ List.replicate 456 0)

/-- C6 witness: on the concrete one-leaf index, both searches at value 5
agree (and return `[2, 3]`). -/
theorem numeric_exact_eq_range_witness :
    (streamGEB (some c6File) 5 12 = true ∧ (5 : Nat) ≤ 6 ∧
      streamGEB (some c6File) 5 12 = true) ∧
    ndx_find_number_exact (some c6File) 5 1000 12
      = ndx_find_number_range (some c6File) 5 5 1000 12 :=
  ⟨⟨by decide, by decide, by decide⟩,
    (numeric_exact_eq_range (some c6File) 5 5 6 1000 12 (by decide) (by decide)
      (by decide)).1⟩

/-! ## Query engine (dbf_query_v2): filters, groups, unified heap map,
execution.  Dynamic Python values are carried as `QVal`; `Except QErr`
models the uncaught exceptions the source can raise. -/

inductive FilterOp
  | equal | not_equal | less_than | less_equal | greater_than | greater_equal
  | between | inList | like | bit_set | bit_clear | bit_mask_all | bit_mask_any
deriving DecidableEq

inductive GroupOp
  | and | or
deriving DecidableEq

/-- An atomic dynamic value (the payload of an `IN` list; field values and
scalar filter values never nest lists in any code path). -/
inductive QAtom
  | anone
  | aint (i : Int)
  | afloatRaw (s : List Nat)
  | abool (b : Bool)
  | astr (s : List Nat)
deriving DecidableEq

/-- A dynamically-typed value in the query layer.  Decimal numeric strings
parse to IEEE floats in the source; no claim depends on their values, so they
are carried symbolically as `vfloatRaw` (their raw digits) and ordered
comparisons on them are treated as out of model. -/
inductive QVal
  | vnone
  | vint (i : Int)
  | vfloatRaw (s : List Nat)
  | vbool (b : Bool)
  | vstr (s : List Nat)
  | vlist (vs : List QAtom)
deriving DecidableEq

def QAtom.toQVal : QAtom → QVal
  | QAtom.anone => QVal.vnone
  | QAtom.aint i => QVal.vint i
  | QAtom.afloatRaw s => QVal.vfloatRaw s
  | QAtom.abool b => QVal.vbool b
  | QAtom.astr s => QVal.vstr s

structure QFilter where
  field_name : List Nat
  op : FilterOp
  value : QVal
  value2 : QVal := QVal.vnone
  ndx_file : Option Nat := Option.none
deriving DecidableEq

/-- `ndx_file is not None`. -/
def QFilter.is_string_filter (f : QFilter) : Bool := f.ndx_file.isSome

structure FilterGroup where
  operator : GroupOp
  filters : List QFilter
deriving DecidableEq

structure DBFQueryM where
  groups : List FilterGroup
deriving DecidableEq

/-- The open table as the query layer reads it: the parsed header and the
rows as `dbf_file_read_row` returns them (entry 0 the delete flag, then one
padded string per field; reads past the end return `[]`). -/
structure QTable where
  header : DBFHeader
  rows : List (List (List Nat))
deriving DecidableEq

def qtable_read_row (t : QTable) (i : Nat) : List (List Nat) := t.rows.getD i []

/-- The file system the query sees: the `.DBF` table plus the `.NDX` files
addressed by the filters' file ids (`none` = the file does not exist). -/
structure QFS where
  dbf : QTable
  ndx : Nat → Option (List Nat)

inductive QErr
  | fieldNotFound
  | unsupportedNdxOp
  | typeError
  | heapMissing
deriving DecidableEq

instance {ε α : Type} [DecidableEq ε] [DecidableEq α] :
    DecidableEq (Except ε α) := fun a b =>
  match a, b with
  | Except.ok x, Except.ok y =>
    if h : x = y then isTrue (by rw [h]) else isFalse (by intro hc; cases hc; exact h rfl)
  | Except.error x, Except.error y =>
    if h : x = y then isTrue (by rw [h]) else isFalse (by intro hc; cases hc; exact h rfl)
  | Except.ok _, Except.error _ => isFalse (by intro hc; cases hc)
  | Except.error _, Except.ok _ => isFalse (by intro hc; cases hc)

def upperBytes (s : List Nat) : List Nat := s.map upperByte

/-- `UnifiedHeapMap`: name→column-index and name→type maps plus the
per-record converted values (the reverse value→recnos index is built by the
source but never read by any code path, and is omitted). -/
structure UHeapMap where
  field_indices : List (List Nat × Nat)
  field_types : List (List Nat × Nat)
  recno_to_values : List (Nat × List (List Nat × QVal))
deriving DecidableEq

def alookup {α : Type} (k : List Nat) (l : List (List Nat × α)) : Option α :=
  (l.find? (fun p => p.1 = k)).map (·.2)

def find_field_index (t : QTable) (name : List Nat) : Option Nat :=
  (List.range t.header.fields.length).find? (fun i =>
    upperBytes (t.header.fields.getD i default).name = upperBytes name)

/-- Field-value conversion in `_build_map` ('N' → int/float, 'D' → YYYYMMDD
integer, 'L' → bool, others kept as stripped text; unconvertible → None). -/
def convertHeapValue (ftype : Nat) (raw : List Nat) : QVal :=
  let value := stripBytes raw
  if ftype = 78 then
    if value = [] then QVal.vnone
    else if ¬ value.contains 46 then
      match parseIntBytes value with
      | some i => QVal.vint i
      | Option.none => QVal.vnone
    else QVal.vfloatRaw value
  else if ftype = 68 then
    if value.length = 8 ∧ value.all isDigitByte then QVal.vint (digitsToNat value)
    else QVal.vnone
  else if ftype = 76 then
    if value = [] then QVal.vnone
    else QVal.vbool (upperBytes value = [84] ∨ upperBytes value = [89] ∨
      upperBytes value = [49])
  else QVal.vstr value

def resolveFields (t : QTable) :
    List (List Nat) → Option (List (List Nat × Nat) × List (List Nat × Nat))
  | [] => some ([], [])
  | n :: rest =>
    match find_field_index t n with
    | Option.none => Option.none
    | some i =>
      match resolveFields t rest with
      | Option.none => Option.none
      | some (idxs, tys) =>
        some ((n, i) :: idxs, (n, (t.header.fields.getD i default).ftype) :: tys)

def buildRecordValues (t : QTable) (fidx ftys : List (List Nat × Nat))
    (recno : Nat) : List (List Nat × QVal) :=
  let row := qtable_read_row t (recno - 1)
  fidx.foldl
    (fun acc p =>
      if p.2 + 1 < row.length then
        match convertHeapValue ((alookup p.1 ftys).getD 0) (row.getD (p.2 + 1) []) with
        | QVal.vnone => acc
        | v => acc ++ [(p.1, v)]
      else acc) []

/-- `UnifiedHeapMap._build_map`; `fieldNotFound` models its `ValueError`. -/
def buildUHeap (t : QTable) (names : List (List Nat)) : Except QErr UHeapMap :=
  match resolveFields t names with
  | Option.none => Except.error QErr.fieldNotFound
  | some (fidx, ftys) =>
    Except.ok
      { field_indices := fidx
        field_types := ftys
        recno_to_values :=
          (List.range' 1 t.header.record_count).foldl
            (fun acc recno =>
              let vals := buildRecordValues t fidx ftys recno
              if vals ≠ [] then acc ++ [(recno, vals)] else acc) [] }

/-- Python `==` on the carried values (`True == 1`, `1 == 1` across
int/bool). -/
def pyEq : QVal → QVal → Bool
  | QVal.vint a, QVal.vbool b => decide (a = (if b then 1 else 0))
  | QVal.vbool a, QVal.vint b => decide ((if a then (1 : Int) else 0) = b)
  | x, y => decide (x = y)

def listLtBytes : List Nat → List Nat → Bool
  | [], [] => false
  | [], _ :: _ => true
  | _ :: _, [] => false
  | a :: as, b :: bs => if a < b then true else if b < a then false else listLtBytes as bs

/-- Python `<` on the carried values; `none` is a `TypeError` (mixed
string/number); symbolic floats are out of model. -/
def pyLt : QVal → QVal → Option Bool
  | QVal.vint a, QVal.vint b => some (a < b)
  | QVal.vint a, QVal.vbool b => some (a < (if b then 1 else 0))
  | QVal.vbool a, QVal.vint b => some ((if a then (1 : Int) else 0) < b)
  | QVal.vbool a, QVal.vbool b => some ((if a then (1 : Int) else 0) < (if b then 1 else 0))
  | QVal.vstr a, QVal.vstr b => some (listLtBytes a b)
  | _, _ => Option.none

def pyLe (a b : QVal) : Option Bool :=
  match pyLt b a with
  | some r => some (!r)
  | Option.none => Option.none

/-- The numeric (int-or-bool, as in Python `isinstance(x, int)`) view of a
value. -/
def qvalAsInt : QVal → Option Int
  | QVal.vint i => some i
  | QVal.vbool b => some (if b then 1 else 0)
  | _ => Option.none

/-- One predicate of `UnifiedHeapMap.evaluate_filter` applied to a stored
field value.  `none`-typed errors model uncaught `TypeError`s (and the
unmodelled negative-operand bitwise cases, which no claim touches). -/
def evalHeapOp (op : FilterOp) (fv value value2 : QVal) : Except QErr Bool :=
  match op with
  | FilterOp.equal => Except.ok (pyEq fv value)
  | FilterOp.not_equal => Except.ok (! pyEq fv value)
  | FilterOp.less_than =>
    match pyLt fv value with
    | some r => Except.ok r
    | Option.none => Except.error QErr.typeError
  | FilterOp.less_equal =>
    match pyLe fv value with
    | some r => Except.ok r
    | Option.none => Except.error QErr.typeError
  | FilterOp.greater_than =>
    match pyLt value fv with
    | some r => Except.ok r
    | Option.none => Except.error QErr.typeError
  | FilterOp.greater_equal =>
    match pyLe value fv with
    | some r => Except.ok r
    | Option.none => Except.error QErr.typeError
  | FilterOp.between =>
    match pyLe value fv with
    | Option.none => Except.error QErr.typeError
    | some false => Except.ok false
    | some true =>
      match pyLe fv value2 with
      | Option.none => Except.error QErr.typeError
      | some r => Except.ok r
  | FilterOp.inList =>
    match value with
    | QVal.vlist l => Except.ok (l.any (fun x => pyEq x.toQVal fv))
    | _ => Except.error QErr.typeError
  | FilterOp.like => Except.ok false
  | FilterOp.bit_set =>
    match qvalAsInt fv with
    | Option.none => Except.ok false
    | some n =>
      match value with
      | QVal.vint v =>
        if v < 0 then Except.error QErr.typeError
        else Except.ok ((n.fdiv (2 ^ v.toNat)).emod 2 = 1)
      | _ => Except.error QErr.typeError
  | FilterOp.bit_clear =>
    match qvalAsInt fv with
    | Option.none => Except.ok false
    | some n =>
      match value with
      | QVal.vint v =>
        if v < 0 then Except.error QErr.typeError
        else Except.ok ((n.fdiv (2 ^ v.toNat)).emod 2 = 0)
      | _ => Except.error QErr.typeError
  | FilterOp.bit_mask_all =>
    match qvalAsInt fv with
    | Option.none => Except.ok false
    | some n =>
      match value with
      | QVal.vint v =>
        if n < 0 ∨ v < 0 then Except.error QErr.typeError
        else Except.ok (n.toNat &&& v.toNat = v.toNat)
      | _ => Except.error QErr.typeError
  | FilterOp.bit_mask_any =>
    match qvalAsInt fv with
    | Option.none => Except.ok false
    | some n =>
      match value with
      | QVal.vint v =>
        if n < 0 ∨ v < 0 then Except.error QErr.typeError
        else Except.ok (n.toNat &&& v.toNat ≠ 0)
      | _ => Except.error QErr.typeError

def alookupNat {α : Type} (k : Nat) (l : List (Nat × α)) : Option α :=
  (l.find? (fun p => p.1 = k)).map (·.2)

/-- `UnifiedHeapMap.evaluate_filter`: scan the candidate record numbers,
keeping those whose converted field value satisfies the predicate. -/
def uheapEvaluateFilter (hm : UHeapMap) (field_name : List Nat) (op : FilterOp)
    (value value2 : QVal) : List Nat → Except QErr (List Nat)
  | [] => Except.ok []
  | recno :: rest =>
    match alookupNat recno hm.recno_to_values with
    | Option.none => uheapEvaluateFilter hm field_name op value value2 rest
    | some rvals =>
      match alookup field_name rvals with
      | Option.none => uheapEvaluateFilter hm field_name op value value2 rest
      | some fv =>
        match evalHeapOp op fv value value2 with
        | Except.error e => Except.error e
        | Except.ok true =>
          match uheapEvaluateFilter hm field_name op value value2 rest with
          | Except.error e => Except.error e
          | Except.ok r => Except.ok (recno :: r)
        | Except.ok false => uheapEvaluateFilter hm field_name op value value2 rest

def insertSorted (x : Nat) : List Nat → List Nat
  | [] => [x]
  | y :: ys => if y ≤ x then y :: insertSorted x ys else x :: y :: ys

/-- Python `sorted` on record numbers (stable ascending sort). -/
def sortNat (l : List Nat) : List Nat := l.foldr insertSorted []

/-- `FilterGroup._evaluate_single_filter`.  An NDX-backed (string) filter
runs the index search and intersects with the candidate set; any other
NDX operation raises; heap filters go through the heap map (`heapMissing`
models the `AttributeError` a `None` heap map would raise — unreachable via
`execute`, which builds the map whenever a non-string filter exists). -/
def evalSingleFilter (fs : QFS) (recnos : List Nat) (f : QFilter)
    (hm : Option UHeapMap) (qfuel : Nat) : Except QErr (List Nat) :=
  if f.is_string_filter then
    match f.ndx_file with
    | some id =>
      match f.op with
      | FilterOp.like =>
        match f.value with
        | QVal.vstr s =>
          Except.ok (sortNat ((ndx_find_pfx (fs.ndx id) s 1000 qfuel).filter
            (fun r => recnos.contains r)))
        | _ => Except.error QErr.typeError
      | FilterOp.equal =>
        match f.value with
        | QVal.vstr s =>
          Except.ok (sortNat ((ndx_find_exact (fs.ndx id) s 1000 qfuel).filter
            (fun r => recnos.contains r)))
        | _ => Except.error QErr.typeError
      | _ => Except.error QErr.unsupportedNdxOp
    | Option.none => Except.error QErr.heapMissing
  else
    match hm with
    | some h => uheapEvaluateFilter h f.field_name f.op f.value f.value2 recnos
    | Option.none => Except.error QErr.heapMissing

def andFiltersLoop (fs : QFS) (hm : Option UHeapMap) (qfuel : Nat) :
    List QFilter → List Nat → Except QErr (List Nat)
  | [], result => Except.ok result
  | f :: rest, result =>
    match evalSingleFilter fs result f hm qfuel with
    | Except.error e => Except.error e
    | Except.ok r => if r = [] then Except.ok r else andFiltersLoop fs hm qfuel rest r

def pyUnion (acc xs : List Nat) : List Nat :=
  xs.foldl (fun a x => if a.contains x then a else a ++ [x]) acc

def setSize (l : List Nat) : Nat := (pyUnion [] l).length

def orFiltersLoop (fs : QFS) (hm : Option UHeapMap) (qfuel : Nat)
    (recnos : List Nat) (setSz : Nat) :
    List QFilter → List Nat → Except QErr (List Nat)
  | [], acc => Except.ok (sortNat acc)
  | f :: rest, acc =>
    match evalSingleFilter fs recnos f hm qfuel with
    | Except.error e => Except.error e
    | Except.ok r =>
      let acc' := pyUnion acc r
      if acc'.length = setSz then Except.ok (sortNat acc')
      else orFiltersLoop fs hm qfuel recnos setSz rest acc'

/-- `FilterGroup.evaluate`. -/
def groupEvaluate (fs : QFS) (hm : Option UHeapMap) (qfuel : Nat)
    (g : FilterGroup) (recnos : List Nat) : Except QErr (List Nat) :=
  if g.filters = [] then Except.ok recnos
  else
    match g.operator with
    | GroupOp.and => andFiltersLoop fs hm qfuel g.filters recnos
    | GroupOp.or => orFiltersLoop fs hm qfuel recnos (setSize recnos) g.filters []

/-- The union of non-string field names across the groups, in insertion
order (the source keeps them in a Python set). -/
def nonStringFieldNames (q : DBFQueryM) : List (List Nat) :=
  (q.groups.flatMap (·.filters)).foldl
    (fun acc f =>
      if f.is_string_filter then acc
      else if acc.contains f.field_name then acc
      else acc ++ [f.field_name]) []

def groupsLoop (fs : QFS) (hm : Option UHeapMap) (qfuel : Nat) :
    List FilterGroup → List Nat → Except QErr (List Nat)
  | [], recnos => Except.ok recnos
  | g :: rest, recnos =>
    match groupEvaluate fs hm qfuel g recnos with
    | Except.error e => Except.error e
    | Except.ok r => if r = [] then Except.ok r else groupsLoop fs hm qfuel rest r

/-- `DBFQuery.execute`: no groups → the empty result; otherwise build the
unified heap map for the non-string fields (if any), start from all record
numbers `1..record_count`, and fold the groups with AND, stopping early on an
empty intermediate result. -/
def DBFQuery_execute (fs : QFS) (q : DBFQueryM) (qfuel : Nat) :
    Except QErr (List Nat) :=
  if q.groups = [] then Except.ok []
  else
    let names := nonStringFieldNames q
    match (if names ≠ [] then (buildUHeap fs.dbf names).map some
        else Except.ok Option.none) with
    | Except.error e => Except.error e
    | Except.ok hm =>
      groupsLoop fs hm qfuel q.groups (List.range' 1 fs.dbf.header.record_count)

/-- C10: a query with no filter groups returns the empty list of record
numbers, for every table — not the full record set. -/
theorem empty_query_returns_empty (fs : QFS) (qfuel : Nat) :
    DBFQuery_execute fs { groups := [] } qfuel = Except.ok [] := rfl

/-- A 3-record table with a missing NDX file and one LIKE filter on it. -/
def c3Header : DBFHeader :=
  { mkSchemaHeader scenarioASchema 3 0 0 0 0 with record_count := 3 }

def c3FS : QFS :=
  { dbf := { header := c3Header, rows := [] }, ndx := fun _ => Option.none }

def c3Filter : QFilter :=
  { field_name := [78, 65, 77, 69], op := FilterOp.like, value := QVal.vstr [75],
    ndx_file := some 0 }

def c3Query : DBFQueryM :=
  { groups := [{ operator := GroupOp.and, filters := [c3Filter] }] }

/-- C3 counterexample: with the named `.NDX` absent, the query completes
normally with an (empty) result set — no `MissingIndex` failure exists in
the code. -/
theorem missing_ndx_query_returns_ok_empty :
    c3FS.ndx 0 = Option.none ∧
    DBFQuery_execute c3FS c3Query 10 = Except.ok [] := by
  refine ⟨rfl, by decide⟩

/-- C3 (amended): an index-backed (LIKE or EXACT) filter whose `.NDX` file
does not exist evaluates to the empty record set (the searches return `[]`
on a missing file), and the query proceeds normally instead of failing. -/
theorem missing_ndx_filter_contributes_empty (fs : QFS) (recnos : List Nat)
    (f : QFilter) (hm : Option UHeapMap) (id qfuel : Nat)
    (hndx : f.ndx_file = some id) (hmiss : fs.ndx id = Option.none)
    (hop : f.op = FilterOp.like ∨ f.op = FilterOp.equal)
    (hval : ∃ s, f.value = QVal.vstr s) :
    evalSingleFilter fs recnos f hm qfuel = Except.ok [] ∧
    (∀ p mc fl, ndx_find_pfx (fs.ndx id) p mc fl = []) ∧
    (∀ k mc fl, ndx_find_exact (fs.ndx id) k mc fl = []) := by
  obtain ⟨s, hs⟩ := hval
  have hstr : f.is_string_filter = true := by
    simp [QFilter.is_string_filter, hndx]
  refine ⟨?_, ?_, ?_⟩
  · unfold evalSingleFilter
    rw [if_pos hstr, hndx]
    rcases hop with hop | hop <;> rw [hop, hs] <;> dsimp only <;>
      rw [hmiss] <;> rfl
  · intro p mc fl
    rw [hmiss]
    rfl
  · intro k mc fl
    rw [hmiss]
    rfl

/-- C3 witness: the amended theorem at the concrete table and filter. -/
theorem missing_ndx_filter_contributes_empty_witness :
    (c3Filter.ndx_file = some 0 ∧ c3FS.ndx 0 = Option.none ∧
      (c3Filter.op = FilterOp.like ∨ c3Filter.op = FilterOp.equal) ∧
      (∃ s, c3Filter.value = QVal.vstr s)) ∧
    evalSingleFilter c3FS [1, 2, 3] c3Filter Option.none 10 = Except.ok [] :=
  ⟨⟨rfl, rfl, Or.inl rfl, ⟨[75], rfl⟩⟩,
    (missing_ndx_filter_contributes_empty c3FS [1, 2, 3] c3Filter Option.none 0 10
      rfl rfl (Or.inl rfl) ⟨[75], rfl⟩).1⟩

end DBase
